import Mathlib

/-!
Verification of the query-rewriting and row-scanning core of the go-utils
repository (package `utils`).  Go strings are modelled as `List Char`
(all text handled by the claims is ASCII, where Go's byte indexing and
character indexing coincide); Go runtime panics (out-of-range slice
indices, failed type assertions) are modelled by `Option`/`none`.
-/

namespace GoUtils

/-- Character list of a string literal, the model of a Go string. -/
def gs (s : String) : List Char := s.data

/-- `utils.IsWhiteSpace` from utils.go: true for space, tab, CR and LF. -/
def IsWhiteSpace (c : Char) : Bool :=
  c = ' ' || c = '\t' || c = '\r' || c = '\n'

/-- The character set trimmed by Go's `strings.TrimSpace` (`unicode.IsSpace`). -/
def isGoSpace (c : Char) : Bool :=
  c = ' ' || c = '\t' || c = '\n' || c = '\x0b' || c = '\x0c' || c = '\r'
    || c = '\x85' || c = '\xa0'

/-- Go `strings.TrimSpace`: drop leading and trailing white space. -/
def trimSpaceGo (s : List Char) : List Char :=
  (s.dropWhile isGoSpace).reverse.dropWhile isGoSpace |>.reverse

/-- Index (in characters) of the first occurrence of `pat` in `s`;
`none` when absent.  Models Go `strings.Index` (which returns -1 when
absent) for ASCII patterns. -/
def firstOccIdx (pat : List Char) : List Char → Option Nat
  | [] => if pat.isEmpty then some 0 else none
  | c :: rest =>
    if pat.isPrefixOf (c :: rest) then some 0
    else (firstOccIdx pat rest).map (· + 1)

/-- Whether `pat` occurs as a contiguous substring of `s`. -/
def containsSub (pat s : List Char) : Bool :=
  (firstOccIdx pat s).isSome

/-- Go `strings.Replace(s, pat, rep, -1)` for a nonempty ASCII `pat`:
replace every leftmost non-overlapping occurrence, never rescanning
the replacement text.  (The Go behaviour for an empty `pat` differs;
the repository never calls it that way, and this model returns the
string unchanged in that case.) -/
def replaceAllGo (pat rep : List Char) : List Char → List Char
  | [] => []
  | c :: rest =>
    if pat.isEmpty then c :: rest
    else if pat.isPrefixOf (c :: rest) then
      rep ++ replaceAllGo pat rep ((c :: rest).drop pat.length)
    else
      c :: replaceAllGo pat rep rest
termination_by s => s.length
decreasing_by
  · simp only [List.length_drop, List.length_cons]
    have : ¬ pat.isEmpty := by assumption
    have hp : 0 < pat.length := by
      cases pat with
      | nil => simp [List.isEmpty] at this
      | cons a l => simp
    omega
  · simp

/-- One keyword-swapping pass shared by `minus2except` and `except2minus`
(query-utils.go): scan left to right for `kw`; a found occurrence is
replaced by `rep` when the characters immediately before and after it
are both white space, and copied through unchanged otherwise.  `prev`
is the character just before the scan position (`none` at the start of
the query).  Reading the character after an occurrence that ends the
string, or before an occurrence that starts it (reached only when the
character after it is white space, matching Go's short-circuit `||`),
is an out-of-range string index in the Go code: modelled as `none`. -/
def swapKwScan (kw rep : List Char) (prev : Option Char) : List Char → Option (List Char)
  | [] => some []
  | c :: rest =>
    if kw.isEmpty then some (c :: rest)
    else if kw.isPrefixOf (c :: rest) then
      match hdrop : (c :: rest).drop kw.length with
      | [] => none
      | cAfter :: tl =>
        if ¬ IsWhiteSpace cAfter then
          (swapKwScan kw rep kw.getLast? (cAfter :: tl)).map (fun t => kw ++ t)
        else
          match prev with
          | none => none
          | some cBefore =>
            if ¬ IsWhiteSpace cBefore then
              (swapKwScan kw rep kw.getLast? (cAfter :: tl)).map (fun t => kw ++ t)
            else
              (swapKwScan kw rep kw.getLast? (cAfter :: tl)).map (fun t => rep ++ t)
    else
      (swapKwScan kw rep (some c) rest).map (fun t => c :: t)
termination_by s => s.length
decreasing_by
  all_goals first
  | (have hke : ¬ kw.isEmpty = true := by assumption
     have hkl : 0 < kw.length := by
       cases kw with
       | nil => simp [List.isEmpty] at hke
       | cons a l => simp
     have hlen : (cAfter :: tl).length = ((c :: rest).drop kw.length).length := by
       rw [hdrop]
     simp only [List.length_drop, List.length_cons] at hlen ⊢
     omega)
  | simp

/-- `minus2except(searchUppercase)` from query-utils.go, one pass. -/
def minus2exceptPass (searchUppercase : Bool) (q : List Char) : Option (List Char) :=
  if searchUppercase then swapKwScan (gs "MINUS") (gs "EXCEPT") none q
  else swapKwScan (gs "minus") (gs "except") none q

/-- `except2minus(searchUppercase)` from query-utils.go, one pass. -/
def except2minusPass (searchUppercase : Bool) (q : List Char) : Option (List Char) :=
  if searchUppercase then swapKwScan (gs "EXCEPT") (gs "MINUS") none q
  else swapKwScan (gs "except") (gs "minus") none q

/-- Both `minus2except` passes, uppercase then lowercase, as every
dialect function calls them. -/
def minus2exceptBoth (q : List Char) : Option (List Char) :=
  (minus2exceptPass true q).bind (minus2exceptPass false)

/-- Both `except2minus` passes, uppercase then lowercase. -/
def except2minusBoth (q : List Char) : Option (List Char) :=
  (except2minusPass true q).bind (except2minusPass false)

/-- An argument value (Go `interface{}`); `vInt` carries a Go `int`. -/
inductive GoVal where
  | vInt (n : Int)
  | vStr (s : String)
  | vNil
deriving DecidableEq, Repr

/-- `utils.PreparedQuery` from query-utils.go.  `paramPfx` models the
`ParamPrefix` field. -/
structure PreparedQuery where
  DbType : String
  paramPfx : List Char
  Query : List Char
  Args : List GoVal
deriving DecidableEq, Repr

/-- Database driver names from db-utils.go. -/
def Postgres : String := "postgres"
def Oracle : String := "oracle"
def Oci8 : String := "oci8"
def Oracle11g : String := "oracle11g"
def Sqlite3 : String := "sqlite3"
def MySQL : String := "mysql"
def SQLServer : String := "mssql"

/-- The positional-parameter marker each dialect uses, from
`DbUtils.setDbType` in db-utils.go. -/
def dialectPfx (dbType : String) : List Char :=
  if dbType = Postgres then gs "$"
  else if dbType = Oci8 || dbType = Oracle || dbType = Oracle11g then gs ":"
  else gs ""

/-- Decimal digits of `n`, as produced by Go's `fmt.Sprintf("%d", n)`
for a nonnegative counter. -/
def natChars (n : Nat) : List Char :=
  if h : n < 10 then [Char.ofNat (48 + n)]
  else natChars (n / 10) ++ [Char.ofNat (48 + n % 10)]
termination_by n
decreasing_by
  have : 10 ≤ n := Nat.le_of_not_lt h
  omega

/-- The renumbering scan of `replaceParamPlaceHolders` (query-utils.go):
the k-th `?`, counting from `i`, becomes `pfx` followed by its index;
all other text is copied through. -/
def renumAux (pfx : List Char) (i : Nat) : List Char → List Char
  | [] => []
  | c :: rest =>
    if c = '?' then pfx ++ natChars i ++ renumAux pfx (i + 1) rest
    else c :: renumAux pfx i rest

/-- `PreparedQuery.replaceParamPlaceHolders` from query-utils.go:
a no-op when the query has no `?` or the dialect has no prefix,
otherwise renumber every `?` left to right starting at 1. -/
def replaceParamPlaceHolders (pq : PreparedQuery) : PreparedQuery :=
  if (firstOccIdx (gs "?") pq.Query).isNone || pq.paramPfx.isEmpty then pq
  else { pq with Query := renumAux pq.paramPfx 1 pq.Query }

/-- `'?' :: s₁ ++ '?' :: s₂ ++ ...`: the placeholder-bearing tail of a
template whose placeholder-free segments are given. -/
def placeholderTail : List (List Char) → List Char
  | [] => []
  | s :: rest => '?' :: (s ++ placeholderTail rest)

/-- A template with exactly `segs.length` generic placeholders: the
placeholder-free prefix `s0`, then each placeholder followed by its
placeholder-free segment. -/
def mkTemplate (s0 : List Char) (segs : List (List Char)) : List Char :=
  s0 ++ placeholderTail segs

/-- The renumbered form the spec prescribes: the k-th placeholder,
counting from `i`, becomes the prefix followed by its decimal index,
with every segment unchanged in place. -/
def expectedRenum (pfx : List Char) (i : Nat) : List (List Char) → List Char
  | [] => []
  | s :: rest => pfx ++ natChars i ++ s ++ expectedRenum pfx (i + 1) rest

/-- The trailing-argument swap `pq.Args = append(pq.Args[:n-2],
pq.Args[n-1], pq.Args[n-2])` guarded by `n >= 2` (arguments to `append`
are read before the backing array is written). -/
def swapLastTwo (args : List GoVal) : List GoVal :=
  match args.reverse with
  | b :: a :: t => (a :: b :: t).reverse
  | _ => args

/-- The `LIMIT ?` search of the pagination rewriters: the uppercase
occurrence when there is one, else the lowercase one. -/
def findLimitIdx (q : List Char) : Option Nat :=
  (firstOccIdx (gs "LIMIT ?") q) <|> (firstOccIdx (gs "limit ?") q)

/-- The `OFFSET ?` search of the pagination rewriters. -/
def findOffsetIdx (q : List Char) : Option Nat :=
  (firstOccIdx (gs "OFFSET ?") q) <|> (firstOccIdx (gs "offset ?") q)

/-- `mssqlLimitAndOffset` and `oracle12cLimitAndOffset` from
query-utils.go (their bodies are identical): rewrite `LIMIT ?` /
`OFFSET ?` into fetch-style paging.  When both keywords are present the
Go code slices `Query[idx1+7 : idx2]`, a runtime panic when the offset
occurrence starts before the end of the limit occurrence: modelled as
`none`. -/
def fetchLimitAndOffset (pq : PreparedQuery) : Option PreparedQuery :=
  let q := pq.Query
  let offsetLwCase := (firstOccIdx (gs "OFFSET ?") q).isNone
  match findLimitIdx q with
  | some idx1 =>
    match findOffsetIdx q with
    | some idx2 =>
      if idx1 + 7 ≤ idx2 then
        let q1 := q.take idx1
        let q2 := (q.drop (idx1 + 7)).take (idx2 - (idx1 + 7))
        let q3 := q.drop (idx2 + 8)
        some { pq with
          Query := q1 ++ gs "OFFSET ? ROWS" ++ q2 ++ gs "FETCH NEXT ? ROWS ONLY" ++ q3,
          Args := swapLastTwo pq.Args }
      else none
    | none =>
      some { pq with
        Query := q.take idx1 ++ gs "OFFSET 0 ROWS\nFETCH NEXT ? ROWS ONLY" ++ q.drop (idx1 + 7) }
  | none =>
    match findOffsetIdx q with
    | some _ =>
      if offsetLwCase then
        some { pq with Query := replaceAllGo (gs "offset ?") (gs "OFFSET ? ROWS") q }
      else
        some { pq with Query := replaceAllGo (gs "OFFSET ?") (gs "OFFSET ? ROWS") q }
    | none => some pq

/-- `mssqlLimitAndOffset` from query-utils.go. -/
def mssqlLimitAndOffset : PreparedQuery → Option PreparedQuery := fetchLimitAndOffset

/-- `oracle12cLimitAndOffset` from query-utils.go. -/
def oracle12cLimitAndOffset : PreparedQuery → Option PreparedQuery := fetchLimitAndOffset

/-- `oracle11gLimitAndOffset` from query-utils.go: wrap the text before
the limit keyword as a subquery filtered by `rownum`, and turn the
trailing (limit, offset) arguments into 1-based inclusive row bounds.
The Go type assertions `pq.Args[...].(int)` panic on non-integer
arguments: modelled as `none`. -/
def oracle11gLimitAndOffset (pq : PreparedQuery) : Option PreparedQuery :=
  let q := pq.Query
  match findLimitIdx q with
  | some idx1 =>
    let q1 := trimSpaceGo (q.take idx1)
    match findOffsetIdx q with
    | some _ =>
      let newQ := gs "SELECT * FROM (\n" ++ q1 ++ gs ")\nWHERE rownum BETWEEN ? AND ?"
      if 2 ≤ pq.Args.length then
        match (swapLastTwo pq.Args).reverse with
        | last :: sndLast :: t =>
          match sndLast, last with
          | GoVal.vInt off, GoVal.vInt nrRows =>
            some { pq with
              Query := newQ,
              Args := (GoVal.vInt (off + nrRows) :: GoVal.vInt (off + 1) :: t).reverse }
          | _, _ => none
        | _ => none
      else
        some { pq with Query := newQ }
    | none =>
      some { pq with Query := gs "SELECT * FROM (\n" ++ q1 ++ gs ")\nWHERE rownum BETWEEN 0 AND ?" }
  | none =>
    match findOffsetIdx q with
    | some idx2 =>
      let q1 := trimSpaceGo (q.take idx2)
      let newQ := gs "SELECT * FROM (\n" ++ q1 ++ gs ")\nWHERE rownum >= ?"
      if 1 ≤ pq.Args.length then
        match pq.Args.reverse with
        | GoVal.vInt off :: t =>
          some { pq with Query := newQ, Args := (GoVal.vInt (off + 1) :: t).reverse }
        | _ => none
      else
        some { pq with Query := newQ }
    | none => some pq

/-- The literal-substring idiom rules of `modifyQuery4Postgres`. -/
def pgIdioms (q : List Char) : List Char :=
  replaceAllGo (gs "timestamp ?") (gs "?")
    (replaceAllGo (gs "date ?") (gs "?")
      (replaceAllGo (gs "TIMESTAMP ?") (gs "?")
        (replaceAllGo (gs "DATE ?") (gs "?")
          (replaceAllGo (gs "current_timestamp") (gs "current_timestamp at time zone \x27UTC\x27")
            (replaceAllGo (gs "now()") (gs "now() at time zone \x27UTC\x27") q)))))

/-- `modifyQuery4Postgres` on the query text. -/
def modifyQuery4PostgresQ (q : List Char) : Option (List Char) :=
  minus2exceptBoth (pgIdioms q)

/-- The literal-substring idiom rules of `modifyQuery4MySQL`. -/
def mysqlIdioms (q : List Char) : List Char :=
  replaceAllGo (gs "\"") (gs "`")
    (replaceAllGo (gs "timestamp ?") (gs "?")
      (replaceAllGo (gs "date ?") (gs "?")
        (replaceAllGo (gs "TIMESTAMP ?") (gs "?")
          (replaceAllGo (gs "DATE ?") (gs "?")
            (replaceAllGo (gs "current_timestamp") (gs "UTC_TIMESTAMP()")
              (replaceAllGo (gs "now()") (gs "UTC_TIMESTAMP()") q))))))

/-- `modifyQuery4MySQL` on the query text. -/
def modifyQuery4MySQLQ (q : List Char) : Option (List Char) :=
  minus2exceptBoth (mysqlIdioms q)

/-- The literal-substring idiom rules of `modifyQuery4MSSQL`. -/
def mssqlIdioms (q : List Char) : List Char :=
  replaceAllGo (gs "timestamp ?") (gs "convert(datetime, ?)")
    (replaceAllGo (gs "date ?") (gs "convert(date, ?)")
      (replaceAllGo (gs "TIMESTAMP ?") (gs "convert(datetime, ?)")
        (replaceAllGo (gs "DATE ?") (gs "convert(date, ?)")
          (replaceAllGo (gs "current_timestamp") (gs "getutcdate()")
            (replaceAllGo (gs "getdate()") (gs "getutcdate()")
              (replaceAllGo (gs "now()") (gs "getutcdate()") q))))))

/-- The pre-pagination stage of `modifyQuery4MSSQL`: idiom rules then
both `minus2except` passes. -/
def mssqlPre (q : List Char) : Option (List Char) :=
  minus2exceptBoth (mssqlIdioms q)

/-- The literal-substring idiom rules shared by `modifyQuery4Oracle12c`
and `modifyQuery4Oracle11g`. -/
def oracleIdioms (q : List Char) : List Char :=
  replaceAllGo (gs "timestamp ?") (gs "to_timestamp(?, \x27yyyy-mm-dd HH:mm:ss\x27)")
    (replaceAllGo (gs "date ?") (gs "to_date(?, \x27yyyy-mm-dd\x27)")
      (replaceAllGo (gs "TIMESTAMP ?") (gs "to_timestamp(?, \x27yyyy-mm-dd HH:mm:ss\x27)")
        (replaceAllGo (gs "DATE ?") (gs "to_date(?, \x27yyyy-mm-dd\x27)")
          (replaceAllGo (gs "current_timestamp") (gs "sys_extract_utc(systimestamp)")
            (replaceAllGo (gs "sysdate") (gs "sys_extract_utc(systimestamp)")
              (replaceAllGo (gs "systimestamp") (gs "sys_extract_utc(systimestamp)")
                (replaceAllGo (gs "now()") (gs "sys_extract_utc(systimestamp)") q)))))))

/-- The pre-pagination stage of `modifyQuery4Oracle12c` and
`modifyQuery4Oracle11g`: idiom rules then both `except2minus` passes. -/
def oraclePre (q : List Char) : Option (List Char) :=
  except2minusBoth (oracleIdioms q)

/-- `modifyQuery4MSSQL` from query-utils.go. -/
def modifyQuery4MSSQL (pq : PreparedQuery) : Option PreparedQuery :=
  (mssqlPre pq.Query).bind fun qm => mssqlLimitAndOffset { pq with Query := qm }

/-- `modifyQuery4Oracle12c` from query-utils.go. -/
def modifyQuery4Oracle12c (pq : PreparedQuery) : Option PreparedQuery :=
  (oraclePre pq.Query).bind fun qm => oracle12cLimitAndOffset { pq with Query := qm }

/-- `modifyQuery4Oracle11g` from query-utils.go. -/
def modifyQuery4Oracle11g (pq : PreparedQuery) : Option PreparedQuery :=
  (oraclePre pq.Query).bind fun qm => oracle11gLimitAndOffset { pq with Query := qm }

/-- `PreparedQuery.Prepare` from query-utils.go: the dialect-specific
rewriting followed by placeholder renumbering.  `none` models a Go
runtime panic inside the rewriting. -/
def Prepare (pq : PreparedQuery) : Option PreparedQuery :=
  let afterDialect : Option PreparedQuery :=
    if pq.DbType = Postgres then
      (modifyQuery4PostgresQ pq.Query).map fun qm => { pq with Query := qm }
    else if pq.DbType = MySQL then
      (modifyQuery4MySQLQ pq.Query).map fun qm => { pq with Query := qm }
    else if pq.DbType = SQLServer then
      modifyQuery4MSSQL pq
    else if pq.DbType = Oracle || pq.DbType = Oci8 then
      modifyQuery4Oracle12c pq
    else if pq.DbType = Oracle11g then
      modifyQuery4Oracle11g pq
    else
      some pq
  afterDialect.map replaceParamPlaceHolders

/-- Number of positional-parameter tokens in `q` for the marker
character `pc`: occurrences of `pc` immediately followed by a decimal
digit (the `$k` / `:k` tokens the renumbered dialects bind by
position). -/
def countTok (pc : Char) : List Char → Nat
  | a :: b :: t => (if a = pc ∧ b.isDigit then 1 else 0) + countTok pc (b :: t)
  | _ => 0

/-- The parameter token crossing the boundary between `A` and `B` in
`A ++ B`, if any: `A`'s last character is the marker and `B`'s first a
digit. -/
def straddleTok (pc : Char) (A B : List Char) : Nat :=
  match A.getLast?, B.head? with
  | some x, some y => if x = pc ∧ y.isDigit then 1 else 0
  | _, _ => 0

/-- The number of parameter placeholders in a final query text: `?`
markers for prefix-less dialects, marker-digit tokens for the
renumbered ones (their queries carry `$k` / `:k` tokens). -/
def countPlaceholders (pfx q : List Char) : Nat :=
  match pfx with
  | [] => q.count '?'
  | pc :: _ => countTok pc q

/-- Whether the fetch-paging rewriter's slice bounds are in order: when
both pagination keywords are found, the limit occurrence must end no
later than the offset occurrence starts. -/
def fetchOrderSafe (q : List Char) : Bool :=
  match findLimitIdx q, findOffsetIdx q with
  | some i1, some i2 => decide (i1 + 7 ≤ i2)
  | _, _ => true

/-- Whether the Oracle 11g rewriter's `.(int)` type assertions are
safe: the arguments they will touch are integers. -/
def o11gArgsSafe (q : List Char) (args : List GoVal) : Bool :=
  match findLimitIdx q, findOffsetIdx q with
  | some _, some _ =>
    if 2 ≤ args.length then
      match args.reverse with
      | GoVal.vInt _ :: GoVal.vInt _ :: _ => true
      | _ => false
    else true
  | none, some _ =>
    if 1 ≤ args.length then
      match args.reverse with
      | GoVal.vInt _ :: _ => true
      | _ => false
    else true
  | _, _ => true

/-- Whether `s` contains none of the patterns in `pats`. -/
def avoidsAll (pats : List (List Char)) (s : List Char) : Bool :=
  pats.all fun p => !(containsSub p s)

/-- Every substring `modifyQuery4Postgres` searches for. -/
def pgPatterns : List (List Char) :=
  [gs "now()", gs "current_timestamp", gs "DATE ?", gs "TIMESTAMP ?",
   gs "date ?", gs "timestamp ?", gs "MINUS", gs "minus"]

/-- Every substring `modifyQuery4Oracle12c` searches for, pagination
keywords included. -/
def o12Patterns : List (List Char) :=
  [gs "now()", gs "systimestamp", gs "sysdate", gs "current_timestamp",
   gs "DATE ?", gs "TIMESTAMP ?", gs "date ?", gs "timestamp ?",
   gs "EXCEPT", gs "except", gs "LIMIT ?", gs "limit ?", gs "OFFSET ?", gs "offset ?"]

/-! ### Row scanner (scan-helper.go) and `NullTime` (db-utils.go) -/

/-- Wall-clock components of a Go `time.Time` as far as the scanner's
text formats populate them: date, time, fractional seconds and an
optional explicit zone offset in minutes.  The zero value of the
structure models the zero `time.Time`.  (Location tagging and monotonic
clock data play no part in the verified claims and are not modelled.) -/
structure GoTime where
  year : Nat := 0
  month : Nat := 0
  day : Nat := 0
  hour : Nat := 0
  minute : Nat := 0
  sec : Nat := 0
  frac : Nat := 0
  tzMin : Option Int := none
deriving DecidableEq, Repr

/-- The zero `time.Time`. -/
def zeroGoTime : GoTime := {}

/-- `utils.NullTime` from db-utils.go. -/
structure NullTime where
  Time : GoTime
  Valid : Bool
deriving DecidableEq, Repr

/-- A driver value handed to `sql.Scanner.Scan` (Go `interface{}`):
SQL NULL arrives as `nil`, a temporal column as `time.Time`, others as
non-temporal values. -/
inductive ScanVal where
  | sNull
  | sTime (t : GoTime)
  | sInt (n : Int)
  | sStr (s : String)
deriving DecidableEq, Repr

/-- `NullTime.Scan` from db-utils.go: `nt.Time, nt.Valid = value.(time.Time)`
(the two-valued type assertion: the zero time and `false` unless the
value is a `time.Time`), always returning a `nil` error (the `Option
String` component). -/
def NullTimeScanned (value : ScanVal) : NullTime × Option String :=
  match value with
  | ScanVal.sTime t => (⟨t, true⟩, none)
  | _ => (⟨zeroGoTime, false⟩, none)

/-- ASCII lowering, the model of Go `strings.ToLower` on SQL
identifiers. -/
def lowerGo (s : List Char) : List Char := s.map Char.toLower

/-- How one result column is bound by `SQLScan.Scan`. -/
inductive ColBinding where
  | rnumCounter
  | field (j : Nat)
  | unbound
deriving DecidableEq, Repr

/-- The inner field loop of `SQLScan.Scan` (lines 97-113): the first
record field whose `sql` tag equals the column name, by exact string
comparison. -/
def fieldIdxLoop : List (List Char) → List Char → Option Nat
  | [], _ => none
  | t :: rest, col => if t = col then some 0 else (fieldIdxLoop rest col).map (· + 1)

/-- Binding of one (already normalized) column name: the synthetic
`rnumignore` column of the Oracle backends goes to the throwaway row
counter, otherwise the first tag-matching field, if any. -/
def bindCol (isOra : Bool) (tags : List (List Char)) (col : List Char) : ColBinding :=
  if isOra && col = gs "rnumignore" then ColBinding.rnumCounter
  else
    match fieldIdxLoop tags col with
    | some j => ColBinding.field j
    | none => ColBinding.unbound

/-- Normalization of one Oracle column name (lines 48-52): a name
whose first byte is not a double quote is lowercased, a quoted one is
kept verbatim.  Reading `colName[0:1]` of an empty name is an
out-of-range index in Go: `none`. -/
def normalizeCol (c : List Char) : Option (List Char) :=
  match c with
  | [] => none
  | c0 :: t => if c0 = '"' then some (c0 :: t) else some (lowerGo (c0 :: t))

/-- The in-place loop over `s.columnNames` (lines 48-52). -/
def normalizeColsLoop : List (List Char) → Option (List (List Char))
  | [] => some []
  | c :: cs =>
    match normalizeCol c with
    | none => none
    | some nc => (normalizeColsLoop cs).map (fun l => nc :: l)

/-- The column-name normalization of `SQLScan.Scan` (lines 47-53):
applied for the Oracle backends only. -/
def normalizeCols (isOra : Bool) (cols : List (List Char)) : Option (List (List Char)) :=
  if isOra then normalizeColsLoop cols else some cols

/-- Whether a dialect is one of the Oracle backends (line 36). -/
def isOracleType (dbType : String) : Bool :=
  dbType = Oci8 || dbType = Oracle || dbType = Oracle11g

/-- The column-to-field binding plan `SQLScan.Scan` computes for a
result shape: normalization followed by per-column binding. -/
def scanBindings (dbType : String) (cols tags : List (List Char)) :
    Option (List ColBinding) :=
  (normalizeCols (isOracleType dbType) cols).map fun cs =>
    cs.map (bindCol (isOracleType dbType) tags)

/-! ### Helper lemmas -/

lemma swapLastTwo_append (l : List GoVal) (a b : GoVal) :
    swapLastTwo (l ++ [a, b]) = l ++ [b, a] := by
  simp [swapLastTwo]

lemma swapLastTwo_length (l : List GoVal) :
    (swapLastTwo l).length = l.length := by
  unfold swapLastTwo
  split
  · rename_i b a t h
    have := congrArg List.length h
    simp at this ⊢
    omega
  · rfl

lemma fetchLO_both (pq : PreparedQuery) (i1 i2 : Nat)
    (h1 : findLimitIdx pq.Query = some i1)
    (h2 : findOffsetIdx pq.Query = some i2)
    (hord : i1 + 7 ≤ i2) :
    fetchLimitAndOffset pq = some { pq with
      Query := pq.Query.take i1 ++ gs "OFFSET ? ROWS"
        ++ (pq.Query.drop (i1 + 7)).take (i2 - (i1 + 7))
        ++ gs "FETCH NEXT ? ROWS ONLY" ++ pq.Query.drop (i2 + 8),
      Args := swapLastTwo pq.Args } := by
  simp only [fetchLimitAndOffset, h1, h2, hord, if_pos]

lemma oracle11g_both (pq : PreparedQuery) (i1 i2 : Nat) (l : List GoVal) (lim off : Int)
    (h1 : findLimitIdx pq.Query = some i1)
    (h2 : findOffsetIdx pq.Query = some i2)
    (ha : pq.Args = l ++ [GoVal.vInt lim, GoVal.vInt off]) :
    oracle11gLimitAndOffset pq = some { pq with
      Query := gs "SELECT * FROM (\n" ++ trimSpaceGo (pq.Query.take i1)
        ++ gs ")\nWHERE rownum BETWEEN ? AND ?",
      Args := l ++ [GoVal.vInt (off + 1), GoVal.vInt (off + lim)] } := by
  have hlen : 2 ≤ pq.Args.length := by
    rw [ha]; simp
  have hswap : swapLastTwo pq.Args = l ++ [GoVal.vInt off, GoVal.vInt lim] := by
    rw [ha, swapLastTwo_append]
  simp only [oracle11gLimitAndOffset, h1, h2, hlen, if_pos, hswap]
  simp

/-! ### Claims -/

/-- C9: `NullTime.Scan` stores the scanned instant with a true validity
flag when the driver value is a temporal instant, and the zero instant
with a false flag when it is SQL NULL or any non-temporal value; it
never reports an error. -/
theorem nullTime_scan_spec :
    (∀ t : GoTime, NullTimeScanned (ScanVal.sTime t) = (⟨t, true⟩, none))
    ∧ NullTimeScanned ScanVal.sNull = (⟨zeroGoTime, false⟩, none)
    ∧ (∀ n : Int, NullTimeScanned (ScanVal.sInt n) = (⟨zeroGoTime, false⟩, none))
    ∧ (∀ s : String, NullTimeScanned (ScanVal.sStr s) = (⟨zeroGoTime, false⟩, none)) := by
  refine ⟨fun t => rfl, rfl, fun n => rfl, fun s => rfl⟩

/-- C1 counterexample: a template that contains both pagination
keywords but with `offset ?` before `limit ?` makes the fetch-paging
rewriter panic (Go slices `Query[idx1+7 : idx2]` with `idx1+7 > idx2`)
instead of producing the rewritten query the claim promises. -/
theorem fetch_misordered_panics :
    mssqlLimitAndOffset ⟨SQLServer, gs "", gs "select * from t offset ? limit ?",
      [GoVal.vInt 5, GoVal.vInt 0]⟩ = none := by
  decide

/-- C1 (amended): for the fetch-paging dialects (SQL Server, Oracle
12c+), a template containing `LIMIT ?` and `OFFSET ?` (either case)
with the limit occurrence before the offset occurrence, and trailing
arguments `(limitVal, offsetVal)`, rewrites into the clause
`OFFSET ? ROWS ... FETCH NEXT ? ROWS ONLY` with the last two arguments
swapped to `(offsetVal, limitVal)`. -/
theorem fetch_limit_offset_spec (pq : PreparedQuery) (i1 i2 : Nat)
    (l : List GoVal) (x y : GoVal)
    (h1 : findLimitIdx pq.Query = some i1)
    (h2 : findOffsetIdx pq.Query = some i2)
    (hord : i1 + 7 ≤ i2)
    (ha : pq.Args = l ++ [x, y]) :
    mssqlLimitAndOffset pq = some { pq with
        Query := pq.Query.take i1 ++ gs "OFFSET ? ROWS"
          ++ (pq.Query.drop (i1 + 7)).take (i2 - (i1 + 7))
          ++ gs "FETCH NEXT ? ROWS ONLY" ++ pq.Query.drop (i2 + 8),
        Args := l ++ [y, x] }
    ∧ oracle12cLimitAndOffset pq = some { pq with
        Query := pq.Query.take i1 ++ gs "OFFSET ? ROWS"
          ++ (pq.Query.drop (i1 + 7)).take (i2 - (i1 + 7))
          ++ gs "FETCH NEXT ? ROWS ONLY" ++ pq.Query.drop (i2 + 8),
        Args := l ++ [y, x] } := by
  have h := fetchLO_both pq i1 i2 h1 h2 hord
  rw [ha, swapLastTwo_append] at h
  exact ⟨h, h⟩

/-- C1 witness: the spec scenario, template
`select * from t where c1 = ? limit ? offset ?` with arguments
`("x", 5, 0)`, yields the fetch clause with arguments `("x", 0, 5)`. -/
theorem fetch_limit_offset_scenario :
    mssqlLimitAndOffset ⟨SQLServer, gs "", gs "select * from t where c1 = ? limit ? offset ?",
        [GoVal.vStr "x", GoVal.vInt 5, GoVal.vInt 0]⟩ =
      some ⟨SQLServer, gs "", gs "select * from t where c1 = ? OFFSET ? ROWS FETCH NEXT ? ROWS ONLY",
        [GoVal.vStr "x", GoVal.vInt 0, GoVal.vInt 5]⟩ := by
  have h := (fetch_limit_offset_spec
    ⟨SQLServer, gs "", gs "select * from t where c1 = ? limit ? offset ?",
      [GoVal.vStr "x", GoVal.vInt 5, GoVal.vInt 0]⟩
    29 37 [GoVal.vStr "x"] (GoVal.vInt 5) (GoVal.vInt 0)
    (by decide) (by decide) (by decide) (by decide)).1
  exact h.trans (by decide)

/-- C3: the row-number-paging (Oracle 11g) rewriter wraps the text
before the limit keyword as a subquery filtered by
`WHERE rownum BETWEEN ? AND ?` and replaces the trailing integer
arguments `(limit, offset)` with the 1-based inclusive bounds
`(offset + 1, offset + limit)`. -/
theorem oracle11g_limit_offset_spec (pq : PreparedQuery) (i1 i2 : Nat)
    (l : List GoVal) (lim off : Int)
    (h1 : findLimitIdx pq.Query = some i1)
    (h2 : findOffsetIdx pq.Query = some i2)
    (ha : pq.Args = l ++ [GoVal.vInt lim, GoVal.vInt off]) :
    oracle11gLimitAndOffset pq = some { pq with
      Query := gs "SELECT * FROM (\n" ++ trimSpaceGo (pq.Query.take i1)
        ++ gs ")\nWHERE rownum BETWEEN ? AND ?",
      Args := l ++ [GoVal.vInt (off + 1), GoVal.vInt (off + lim)] } :=
  oracle11g_both pq i1 i2 l lim off h1 h2 ha

/-- C3 witness: `limitVal = 10`, `offsetVal = 20` yields bound
arguments `(21, 30)`. -/
theorem oracle11g_limit_offset_10_20 :
    oracle11gLimitAndOffset ⟨Oracle11g, gs ":", gs "select * from t limit ? offset ?",
        [GoVal.vInt 10, GoVal.vInt 20]⟩ =
      some ⟨Oracle11g, gs ":", gs "SELECT * FROM (\nselect * from t)\nWHERE rownum BETWEEN ? AND ?",
        [GoVal.vInt 21, GoVal.vInt 30]⟩ := by
  have h := oracle11g_limit_offset_spec
    ⟨Oracle11g, gs ":", gs "select * from t limit ? offset ?", [GoVal.vInt 10, GoVal.vInt 20]⟩
    16 24 [] 10 20 (by decide) (by decide) (by decide)
  exact h.trans (by decide)

lemma firstOccIdx_singleton_none_iff (c : Char) (s : List Char) :
    firstOccIdx [c] s = none ↔ c ∉ s := by
  induction s with
  | nil => simp [firstOccIdx]
  | cons a t ih =>
    by_cases hca : c = a
    · subst hca
      simp [firstOccIdx, List.isPrefixOf]
    · simp [firstOccIdx, List.isPrefixOf, hca, Ne.symm hca, ih]

lemma renumAux_append_noq (pfx s t : List Char) (i : Nat) (h : '?' ∉ s) :
    renumAux pfx i (s ++ t) = s ++ renumAux pfx i t := by
  induction s with
  | nil => simp
  | cons c s2 ih =>
    have hc : ¬ c = '?' := fun hq => h (hq ▸ List.mem_cons_self c s2)
    have hs2 : '?' ∉ s2 := fun hq => h (List.mem_cons_of_mem c hq)
    simp [renumAux, hc, ih hs2]

lemma renumAux_placeholderTail (pfx : List Char) (i : Nat) (segs : List (List Char))
    (h : ∀ s ∈ segs, '?' ∉ s) :
    renumAux pfx i (placeholderTail segs) = expectedRenum pfx i segs := by
  induction segs generalizing i with
  | nil => simp [placeholderTail, expectedRenum, renumAux]
  | cons s rest ih =>
    have hs : '?' ∉ s := h s (List.mem_cons_self s rest)
    have hrest : ∀ u ∈ rest, '?' ∉ u := fun u hu => h u (List.mem_cons_of_mem s hu)
    simp only [placeholderTail, expectedRenum, renumAux, if_pos rfl]
    rw [renumAux_append_noq pfx s (placeholderTail rest) (i + 1) hs, ih (i + 1) hrest]
    simp

/-- C2: the placeholder renumbering step.  With a nonempty prefix, the
k-th generic placeholder (left to right, k starting at 1) becomes the
prefix followed by k in decimal, all placeholder-free text is kept
unchanged in its original relative order, and the argument list is
untouched (so its length is still the placeholder count N when it was
N-long); with an empty prefix the step is the identity. -/
theorem renumber_spec :
    (∀ (d : String) (pfx s0 : List Char) (segs : List (List Char)) (args : List GoVal),
      pfx ≠ [] → '?' ∉ s0 → (∀ s ∈ segs, '?' ∉ s) →
      replaceParamPlaceHolders ⟨d, pfx, mkTemplate s0 segs, args⟩ =
        ⟨d, pfx, s0 ++ expectedRenum pfx 1 segs, args⟩)
    ∧ (∀ (d : String) (pfx s0 : List Char) (segs : List (List Char)) (args : List GoVal),
      pfx ≠ [] → '?' ∉ s0 → (∀ s ∈ segs, '?' ∉ s) → args.length = segs.length →
      (replaceParamPlaceHolders ⟨d, pfx, mkTemplate s0 segs, args⟩).Args.length = segs.length)
    ∧ (∀ (d : String) (q : List Char) (args : List GoVal),
      replaceParamPlaceHolders ⟨d, gs "", q, args⟩ = ⟨d, gs "", q, args⟩) := by
  have main : ∀ (d : String) (pfx s0 : List Char) (segs : List (List Char)) (args : List GoVal),
      pfx ≠ [] → '?' ∉ s0 → (∀ s ∈ segs, '?' ∉ s) →
      replaceParamPlaceHolders ⟨d, pfx, mkTemplate s0 segs, args⟩ =
        ⟨d, pfx, s0 ++ expectedRenum pfx 1 segs, args⟩ := by
    intro d pfx s0 segs args hp h0 hsegs
    cases segs with
    | nil =>
      have hmk : mkTemplate s0 [] = s0 := by
        simp [mkTemplate, placeholderTail]
      have hno : firstOccIdx ['?'] s0 = none :=
        (firstOccIdx_singleton_none_iff '?' _).mpr h0
      rw [hmk]
      simp [replaceParamPlaceHolders, gs, hno, expectedRenum]
    | cons s rest =>
      have hmem : '?' ∈ mkTemplate s0 (s :: rest) := by
        simp [mkTemplate, placeholderTail]
      have hocc : ¬ firstOccIdx ['?'] (mkTemplate s0 (s :: rest)) = none := by
        intro hnone
        exact ((firstOccIdx_singleton_none_iff '?' _).mp hnone) hmem
      have hpe : ¬ pfx.isEmpty = true := by
        cases pfx with
        | nil => exact absurd rfl hp
        | cons a l => simp
      simp only [replaceParamPlaceHolders, gs, Option.isNone_iff_eq_none]
      rw [if_neg (by simp [hocc, hpe])]
      simp only [mkTemplate]
      rw [renumAux_append_noq pfx s0 _ 1 h0, renumAux_placeholderTail pfx 1 _ hsegs]
  refine ⟨main, ?_, ?_⟩
  · intro d pfx s0 segs args hp h0 hsegs hlen
    rw [main d pfx s0 segs args hp h0 hsegs]
    exact hlen
  · intro d q args
    simp [replaceParamPlaceHolders, gs]

/-- C2 witness: renumbering `select * from t where a = ? and b = ?`
with the `$` prefix yields `$1` and `$2` and leaves the two arguments
alone. -/
theorem renumber_witness :
    replaceParamPlaceHolders ⟨Postgres, gs "$",
        gs "select * from t where a = ? and b = ?", [GoVal.vInt 1, GoVal.vInt 2]⟩ =
      ⟨Postgres, gs "$", gs "select * from t where a = $1 and b = $2",
        [GoVal.vInt 1, GoVal.vInt 2]⟩ := by
  have h := renumber_spec.1 Postgres (gs "$") (gs "select * from t where a = ")
    [gs " and b = ", gs ""] [GoVal.vInt 1, GoVal.vInt 2]
    (by decide) (by decide) (by decide)
  have harg : mkTemplate (gs "select * from t where a = ") [gs " and b = ", gs ""] =
      gs "select * from t where a = ? and b = ?" := by decide
  rw [harg] at h
  refine h.trans ?_
  have : (gs "select * from t where a = ") ++
      expectedRenum (gs "$") 1 [gs " and b = ", gs ""] =
      gs "select * from t where a = $1 and b = $2" := by
    simp [expectedRenum, natChars, gs]
  rw [this]

lemma containsSub_eq_false_iff (p s : List Char) :
    containsSub p s = false ↔ firstOccIdx p s = none := by
  cases h : firstOccIdx p s <;> simp [containsSub, h]

lemma firstOccIdx_cons_none (pat : List Char) (c : Char) (rest : List Char) :
    firstOccIdx pat (c :: rest) = none ↔
      (¬ pat.isPrefixOf (c :: rest) = true) ∧ firstOccIdx pat rest = none := by
  by_cases hp : pat.isPrefixOf (c :: rest) <;> simp [firstOccIdx, hp]

lemma replaceAllGo_of_not_contains (pat rep s : List Char)
    (h : containsSub pat s = false) : replaceAllGo pat rep s = s := by
  induction s with
  | nil => simp [replaceAllGo]
  | cons c rest ih =>
    rw [containsSub_eq_false_iff] at h
    rcases (firstOccIdx_cons_none pat c rest).mp h with ⟨hpre, htail⟩
    have htail2 : containsSub pat rest = false := (containsSub_eq_false_iff pat rest).mpr htail
    by_cases hpe : pat.isEmpty
    · simp [replaceAllGo, hpe]
    · simp [replaceAllGo, hpe, hpre, ih htail2]

lemma swapKwScan_of_not_contains (kw rep : List Char) (prev : Option Char) (s : List Char)
    (h : containsSub kw s = false) : swapKwScan kw rep prev s = some s := by
  induction s generalizing prev with
  | nil => simp [swapKwScan]
  | cons c rest ih =>
    rw [containsSub_eq_false_iff] at h
    rcases (firstOccIdx_cons_none kw c rest).mp h with ⟨hpre, htail⟩
    have htail2 : containsSub kw rest = false := (containsSub_eq_false_iff kw rest).mpr htail
    by_cases hpe : kw.isEmpty
    · simp [swapKwScan, hpe]
    · simp [swapKwScan, hpe, hpre, ih (some c) htail2]

lemma swapKwScan_firstOcc (kw rep : List Char) (hk : kw.isEmpty = false) :
    ∀ (s : List Char) (prev : Option Char) (i : Nat),
      firstOccIdx kw s = some i →
      swapKwScan kw rep prev s =
        match (s.drop (i + kw.length)).head? with
        | none => none
        | some cAfter =>
          if IsWhiteSpace cAfter then
            match (if i = 0 then prev else (s.take i).getLast?) with
            | none => none
            | some cBefore =>
              (swapKwScan kw rep kw.getLast? (s.drop (i + kw.length))).map
                (fun t => s.take i ++ (if IsWhiteSpace cBefore then rep else kw) ++ t)
          else
            (swapKwScan kw rep kw.getLast? (s.drop (i + kw.length))).map
              (fun t => s.take i ++ kw ++ t) := by
  intro s
  induction s with
  | nil =>
    intro prev i h
    simp [firstOccIdx, hk] at h
  | cons c rest ih =>
    intro prev i h
    by_cases hpre : kw.isPrefixOf (c :: rest)
    · have hi0 : i = 0 := by
        rw [firstOccIdx, if_pos hpre] at h
        exact (Option.some_inj.mp h).symm
      subst hi0
      rw [swapKwScan]
      rw [if_neg (by simp [hk]), if_pos hpre]
      simp only [Nat.zero_add, List.take_zero, List.nil_append]
      split
      · rename_i heq
        rw [heq]
        rfl
      · rename_i cAfter tl heq
        rw [heq]
        simp only [List.head?_cons]
        by_cases hws : IsWhiteSpace cAfter
        · simp only [hws, if_true, not_true, if_false]
          cases prev with
          | none => rfl
          | some cBefore =>
            by_cases hwb : IsWhiteSpace cBefore
            · simp [hwb]
            · simp [hwb]
        · simp [hws]
    · have hrest : ∃ i1, firstOccIdx kw rest = some i1 ∧ i = i1 + 1 := by
        rw [firstOccIdx, if_neg hpre] at h
        cases hfo : firstOccIdx kw rest with
        | none => rw [hfo] at h; simp at h
        | some j =>
          rw [hfo] at h
          exact ⟨j, rfl, (Option.some_inj.mp h).symm⟩
      obtain ⟨i1, hi1, rfl⟩ := hrest
      have hrestne : rest ≠ [] := by
        intro hnil
        rw [hnil] at hi1
        simp [firstOccIdx, hk] at hi1
      rw [swapKwScan]
      rw [if_neg (by simp [hk]), if_neg hpre]
      rw [ih (some c) i1 hi1]
      have hdropEq : (c :: rest).drop (i1 + 1 + kw.length) = rest.drop (i1 + kw.length) := by
        rw [show i1 + 1 + kw.length = (i1 + kw.length) + 1 from by omega]
        rfl
      have htakeEq : (c :: rest).take (i1 + 1) = c :: rest.take i1 := rfl
      rw [hdropEq, htakeEq]
      have hlast : (if i1 = 0 then some c else (rest.take i1).getLast?) =
          (c :: rest.take i1).getLast? := by
        by_cases hi10 : i1 = 0
        · subst hi10
          rfl
        · cases htk : rest.take i1 with
          | nil =>
            rcases List.take_eq_nil_iff.mp htk with h0 | h0
            · exact absurd h0 hi10
            · exact absurd h0 hrestne
          | cons a l2 =>
            rw [if_neg hi10, List.getLast?_cons_cons]
      rw [if_neg (Nat.succ_ne_zero i1), ← hlast]
      cases hhd : (rest.drop (i1 + kw.length)).head? with
      | none => rfl
      | some cAfter =>
        by_cases hws : IsWhiteSpace cAfter
        · simp only [hws, if_true]
          cases hsrc : (if i1 = 0 then some c else (rest.take i1).getLast?) with
          | none => rfl
          | some cBefore =>
            cases swapKwScan kw rep kw.getLast? (rest.drop (i1 + kw.length)) with
            | none => rfl
            | some t => simp
        · simp only [hws, if_false]
          cases swapKwScan kw rep kw.getLast? (rest.drop (i1 + kw.length)) with
          | none => rfl
          | some t => simp

lemma minus2exceptBoth_of_avoids (q : List Char)
    (h1 : containsSub (gs "MINUS") q = false) (h2 : containsSub (gs "minus") q = false) :
    minus2exceptBoth q = some q := by
  simp [minus2exceptBoth, minus2exceptPass,
    swapKwScan_of_not_contains _ _ _ _ h1, swapKwScan_of_not_contains _ _ _ _ h2]

lemma except2minusBoth_of_avoids (q : List Char)
    (h1 : containsSub (gs "EXCEPT") q = false) (h2 : containsSub (gs "except") q = false) :
    except2minusBoth q = some q := by
  simp [except2minusBoth, except2minusPass,
    swapKwScan_of_not_contains _ _ _ _ h1, swapKwScan_of_not_contains _ _ _ _ h2]

lemma fetch_id_of_no_pag (pq : PreparedQuery)
    (h1 : containsSub (gs "LIMIT ?") pq.Query = false)
    (h2 : containsSub (gs "limit ?") pq.Query = false)
    (h3 : containsSub (gs "OFFSET ?") pq.Query = false)
    (h4 : containsSub (gs "offset ?") pq.Query = false) :
    fetchLimitAndOffset pq = some pq := by
  rw [containsSub_eq_false_iff] at h1 h2 h3 h4
  simp [fetchLimitAndOffset, findLimitIdx, findOffsetIdx, h1, h2, h3, h4]

lemma oracle11g_id_of_no_pag (pq : PreparedQuery)
    (h1 : containsSub (gs "LIMIT ?") pq.Query = false)
    (h2 : containsSub (gs "limit ?") pq.Query = false)
    (h3 : containsSub (gs "OFFSET ?") pq.Query = false)
    (h4 : containsSub (gs "offset ?") pq.Query = false) :
    oracle11gLimitAndOffset pq = some pq := by
  rw [containsSub_eq_false_iff] at h1 h2 h3 h4
  simp [oracle11gLimitAndOffset, findLimitIdx, findOffsetIdx, h1, h2, h3, h4]

lemma pgIdioms_of_avoids (q : List Char) (h : avoidsAll pgPatterns q = true) :
    pgIdioms q = q := by
  simp only [avoidsAll, pgPatterns, List.all_cons, List.all_nil, Bool.and_eq_true,
    Bool.not_eq_true', and_true] at h
  obtain ⟨a1, a2, a3, a4, a5, a6, a7, a8⟩ := h
  unfold pgIdioms
  rw [replaceAllGo_of_not_contains _ _ _ a1, replaceAllGo_of_not_contains _ _ _ a2,
    replaceAllGo_of_not_contains _ _ _ a3, replaceAllGo_of_not_contains _ _ _ a4,
    replaceAllGo_of_not_contains _ _ _ a5, replaceAllGo_of_not_contains _ _ _ a6]

lemma oracleIdioms_of_avoids (q : List Char)
    (h : avoidsAll (o12Patterns.take 8) q = true) :
    oracleIdioms q = q := by
  simp only [o12Patterns, List.take, avoidsAll, List.all_cons, List.all_nil,
    Bool.and_eq_true, Bool.not_eq_true', and_true] at h
  obtain ⟨a1, a2, a3, a4, a5, a6, a7, a8⟩ := h
  unfold oracleIdioms
  rw [replaceAllGo_of_not_contains _ _ _ a1, replaceAllGo_of_not_contains _ _ _ a2,
    replaceAllGo_of_not_contains _ _ _ a3, replaceAllGo_of_not_contains _ _ _ a4,
    replaceAllGo_of_not_contains _ _ _ a5, replaceAllGo_of_not_contains _ _ _ a6,
    replaceAllGo_of_not_contains _ _ _ a7, replaceAllGo_of_not_contains _ _ _ a8]

/-- C5 counterexample: the idiom rewriter is not idempotent — on the
Postgres dialect the current-instant rule re-matches its own output, so
a second application of the rewriter to the already-rewritten text of
`select now()` appends the UTC suffix a second time. -/
theorem pg_idiom_rewrite_not_idempotent :
    modifyQuery4PostgresQ (gs "select now()") =
        some (gs "select now() at time zone \x27UTC\x27")
    ∧ modifyQuery4PostgresQ (gs "select now() at time zone \x27UTC\x27") =
        some (gs "select now() at time zone \x27UTC\x27 at time zone \x27UTC\x27")
    ∧ gs "select now() at time zone \x27UTC\x27 at time zone \x27UTC\x27" ≠
        gs "select now() at time zone \x27UTC\x27" := by
  refine ⟨?_, ?_, by decide⟩
  · simp [modifyQuery4PostgresQ, pgIdioms, minus2exceptBoth, minus2exceptPass,
      replaceAllGo, swapKwScan, gs]
  · simp [modifyQuery4PostgresQ, pgIdioms, minus2exceptBoth, minus2exceptPass,
      replaceAllGo, swapKwScan, gs]

/-- C5 (amended): the idiom rewriting is not idempotent in general (the
current-instant rules re-match their own output); it is a no-op on any
rewritten text that no longer contains one of the dialect's search
patterns, for the Postgres rewriter and the Oracle 12c+ rewriter
alike. -/
theorem idiom_rewrite_idempotent_on_clean_output :
    (∀ q r : List Char, modifyQuery4PostgresQ q = some r →
      avoidsAll pgPatterns r = true → modifyQuery4PostgresQ r = some r)
    ∧ (∀ pq pq2 : PreparedQuery, modifyQuery4Oracle12c pq = some pq2 →
      avoidsAll o12Patterns pq2.Query = true → modifyQuery4Oracle12c pq2 = some pq2) := by
  constructor
  · intro q r _ hav
    have h7 : containsSub (gs "MINUS") r = false := by
      simp only [avoidsAll, pgPatterns, List.all_cons, Bool.and_eq_true,
        Bool.not_eq_true'] at hav
      exact hav.2.2.2.2.2.2.1
    have h8 : containsSub (gs "minus") r = false := by
      simp only [avoidsAll, pgPatterns, List.all_cons, Bool.and_eq_true,
        Bool.not_eq_true'] at hav
      exact hav.2.2.2.2.2.2.2.1
    rw [modifyQuery4PostgresQ, pgIdioms_of_avoids r hav,
      minus2exceptBoth_of_avoids r h7 h8]
  · intro pq pq2 _ hav
    simp only [avoidsAll, o12Patterns, List.all_cons, List.all_nil, Bool.and_eq_true,
      Bool.not_eq_true', and_true] at hav
    obtain ⟨a1, a2, a3, a4, a5, a6, a7, a8, a9, a10, a11, a12, a13, a14⟩ := hav
    have hid : oracleIdioms pq2.Query = pq2.Query := by
      apply oracleIdioms_of_avoids
      simp [avoidsAll, o12Patterns, List.take, a1, a2, a3, a4, a5, a6, a7, a8]
    have hkw : except2minusBoth pq2.Query = some pq2.Query :=
      except2minusBoth_of_avoids pq2.Query a9 a10
    have hfetch : fetchLimitAndOffset pq2 = some pq2 :=
      fetch_id_of_no_pag pq2 a11 a12 a13 a14
    simp [modifyQuery4Oracle12c, oraclePre, hid, hkw, oracle12cLimitAndOffset, hfetch]

/-- C5 witness: rewriting `select a where d = DATE ?` for Postgres
yields `select a where d = ?`, which contains no pattern any more, and
a second application leaves it unchanged. -/
theorem idiom_rewrite_idempotent_witness :
    modifyQuery4PostgresQ (gs "select a where d = ?") =
      some (gs "select a where d = ?") := by
  have h := idiom_rewrite_idempotent_on_clean_output.1
    (gs "select a where d = DATE ?") (gs "select a where d = ?")
    (by simp [modifyQuery4PostgresQ, pgIdioms, minus2exceptBoth, minus2exceptPass,
      replaceAllGo, swapKwScan, gs])
    (by decide)
  exact h

/-- C10 counterexample: a keyword occurrence at the very start of the
query followed by white space is not copied through unchanged — the Go
code reads `Query[pos2:pos2+1]` with `pos2 = -1`, an out-of-range index
(panic), so the swap produces nothing at all. -/
theorem minus2except_start_panics :
    minus2exceptPass false (gs "minus x") = none := by
  simp [minus2exceptPass, gs, swapKwScan, IsWhiteSpace]

/-- C10 (amended): for every one of the four keyword-swap passes (each
case variant an independent scan started with no previous character),
the scan of any query is characterized occurrence by occurrence: the
earliest keyword occurrence is replaced exactly when the characters
immediately before and after it are both white space (space, tab, CR or
LF; the character before being the pass's start state when the
occurrence opens the query), is copied through unchanged when the
character on either side is not white space, and the scan then
continues after the occurrence with the keyword's last character as the
new previous character — so every later occurrence, in a query of any
length with any number of occurrences, is treated the same way.  An
occurrence ending at the very end of the query makes the pass panic
(out-of-range read of the character after it), as does an occurrence
opening the query when the character after it is white space; a query
without the keyword is returned unchanged. -/
theorem keyword_swap_delimiter_spec :
    (∀ kw rep : List Char,
      ((kw, rep) = (gs "MINUS", gs "EXCEPT") ∨ (kw, rep) = (gs "minus", gs "except")
        ∨ (kw, rep) = (gs "EXCEPT", gs "MINUS") ∨ (kw, rep) = (gs "except", gs "minus")) →
      ∀ (prev : Option Char) (s : List Char) (i : Nat),
        firstOccIdx kw s = some i →
        swapKwScan kw rep prev s =
          match (s.drop (i + kw.length)).head? with
          | none => none
          | some cAfter =>
            if IsWhiteSpace cAfter then
              match (if i = 0 then prev else (s.take i).getLast?) with
              | none => none
              | some cBefore =>
                (swapKwScan kw rep kw.getLast? (s.drop (i + kw.length))).map
                  (fun t => s.take i ++ (if IsWhiteSpace cBefore then rep else kw) ++ t)
            else
              (swapKwScan kw rep kw.getLast? (s.drop (i + kw.length))).map
                (fun t => s.take i ++ kw ++ t))
    ∧ (∀ (kw rep : List Char) (prev : Option Char) (s : List Char),
        firstOccIdx kw s = none → swapKwScan kw rep prev s = some s)
    ∧ (∀ q : List Char,
      minus2exceptPass true q = swapKwScan (gs "MINUS") (gs "EXCEPT") none q
      ∧ minus2exceptPass false q = swapKwScan (gs "minus") (gs "except") none q
      ∧ except2minusPass true q = swapKwScan (gs "EXCEPT") (gs "MINUS") none q
      ∧ except2minusPass false q = swapKwScan (gs "except") (gs "minus") none q) := by
  refine ⟨?_, ?_, ?_⟩
  · intro kw rep hmem prev s i h
    have hk : kw.isEmpty = false := by
      rcases hmem with hv | hv | hv | hv <;>
        (injection hv with hv1 hv2; subst hv1; decide)
    exact swapKwScan_firstOcc kw rep hk s prev i h
  · intro kw rep prev s h
    exact swapKwScan_of_not_contains kw rep prev s (by simp [containsSub, h])
  · intro q
    exact ⟨rfl, rfl, rfl, rfl⟩

/-- C10 witness: the lowercase pass on `a minus b minus c` — two
interior occurrences, both white-space delimited — replaces both, the
first through the theorem's occurrence characterization at index 2 and
the rest by evaluation of the continuation. -/
theorem keyword_swap_delimiter_witness :
    swapKwScan (gs "minus") (gs "except") none (gs "a minus b minus c") =
      some (gs "a except b except c") := by
  have h := keyword_swap_delimiter_spec.1 (gs "minus") (gs "except")
    (Or.inr (Or.inl rfl)) none (gs "a minus b minus c") 2 (by decide)
  rw [h]
  simp [gs, swapKwScan, IsWhiteSpace, List.isPrefixOf]

lemma fieldIdxLoop_eq_none_iff (tags : List (List Char)) (c : List Char) :
    fieldIdxLoop tags c = none ↔ c ∉ tags := by
  induction tags with
  | nil => simp [fieldIdxLoop]
  | cons t rest ih =>
    by_cases ht : t = c
    · subst ht
      simp [fieldIdxLoop]
    · have hcn : ¬ c = t := fun hh => ht hh.symm
      simp [fieldIdxLoop, ht, ih, hcn]

lemma fieldIdxLoop_eq_some_iff (tags : List (List Char)) (c : List Char) (j : Nat) :
    fieldIdxLoop tags c = some j ↔
      (tags.get? j = some c ∧ ∀ k, k < j → tags.get? k ≠ some c) := by
  induction tags generalizing j with
  | nil => simp [fieldIdxLoop]
  | cons t rest ih =>
    by_cases ht : t = c
    · subst ht
      cases j with
      | zero =>
        simp only [fieldIdxLoop, if_pos rfl, List.get?_cons_zero]
        constructor
        · intro h
          exact ⟨by simp, fun k hk => absurd hk (Nat.not_lt_zero k)⟩
        · intro h
          rfl
      | succ j2 =>
        simp only [fieldIdxLoop, if_pos rfl]
        constructor
        · intro h
          cases h
        · rintro ⟨-, hall⟩
          have h0 : (t :: rest).get? 0 ≠ some t := hall 0 (Nat.succ_pos j2)
          exact absurd List.get?_cons_zero h0
    · cases j with
      | zero =>
        simp only [fieldIdxLoop, if_neg ht, List.get?_cons_zero]
        constructor
        · intro h
          rcases Option.map_eq_some'.mp h with ⟨j', -, hj'⟩
          omega
        · rintro ⟨h0, -⟩
          have : t = c := Option.some.inj h0
          exact absurd this ht
      | succ j2 =>
        simp only [fieldIdxLoop, if_neg ht, List.get?_cons_succ]
        constructor
        · intro h
          rcases Option.map_eq_some'.mp h with ⟨j', hj', heq⟩
          have hj2 : j' = j2 := by omega
          rw [hj2] at hj'
          rcases (ih j2).mp hj' with ⟨hget, hall⟩
          refine ⟨hget, ?_⟩
          intro k hk
          cases k with
          | zero =>
            rw [List.get?_cons_zero]
            intro hh
            exact ht (Option.some.inj hh)
          | succ k2 =>
            rw [List.get?_cons_succ]
            exact hall k2 (by omega)
        · rintro ⟨hget, hall⟩
          have hj : fieldIdxLoop rest c = some j2 := by
            refine (ih j2).mpr ⟨hget, ?_⟩
            intro k hk
            have := hall (k + 1) (by omega)
            rwa [List.get?_cons_succ] at this
          simp [hj]

lemma orElse_eq_some_cases {α : Type} (a b : Option α) (i : α) (h : (a <|> b) = some i) :
    a = some i ∨ (a = none ∧ b = some i) := by
  cases a with
  | none => right; exact ⟨rfl, by simpa using h⟩
  | some j => left; simpa using h

lemma orElse_eq_none {α : Type} (a b : Option α) (h : (a <|> b) = none) :
    a = none ∧ b = none := by
  cases a with
  | none => exact ⟨rfl, by simpa using h⟩
  | some j => simp at h

lemma prefixOf_to_eq_append (pat s : List Char) (h : pat.isPrefixOf s = true) :
    pat ++ s.drop pat.length = s := by
  have h2 : pat <+: s := Iff.mp List.isPrefixOf_iff_prefix h
  exact Iff.mp List.prefix_iff_eq_append h2

lemma prefixOf_length_le (pat s : List Char) (h : pat.isPrefixOf s = true) :
    pat.length ≤ s.length := by
  have h2 := prefixOf_to_eq_append pat s h
  have h3 := congrArg List.length h2
  simp only [List.length_append, List.length_drop] at h3
  omega

lemma firstOccIdx_some_le (pat s : List Char) (i : Nat)
    (h : firstOccIdx pat s = some i) : i + pat.length ≤ s.length := by
  induction s generalizing i with
  | nil =>
    by_cases hp : pat.isEmpty
    · have hpe : pat = [] := by
        cases pat with
        | nil => rfl
        | cons a l => simp [List.isEmpty] at hp
      simp [firstOccIdx, hp] at h
      subst hpe
      simp only [List.length_nil]
      omega
    · simp [firstOccIdx, hp] at h
  | cons c rest ih =>
    by_cases hp : pat.isPrefixOf (c :: rest)
    · simp [firstOccIdx, hp] at h
      have hle := prefixOf_length_le pat (c :: rest) hp
      simp only [List.length_cons] at hle ⊢
      omega
    · simp only [firstOccIdx, hp, if_false, Bool.false_eq_true] at h
      rcases Option.map_eq_some'.mp h with ⟨i', hi', hadd⟩
      have := ih i' hi'
      simp only [List.length_cons]
      omega

lemma firstOccIdx_some_decomp (pat s : List Char) (i : Nat)
    (h : firstOccIdx pat s = some i) :
    s = s.take i ++ pat ++ s.drop (i + pat.length) := by
  induction s generalizing i with
  | nil =>
    by_cases hp : pat.isEmpty
    · have hpe : pat = [] := by
        cases pat with
        | nil => rfl
        | cons a l => simp [List.isEmpty] at hp
      simp [firstOccIdx, hp] at h
      simp [hpe]
    · simp [firstOccIdx, hp] at h
  | cons c rest ih =>
    by_cases hp : pat.isPrefixOf (c :: rest)
    · simp only [firstOccIdx, hp, if_pos, Option.some.injEq] at h
      have hpre := prefixOf_to_eq_append pat (c :: rest) hp
      rw [← h]
      simpa using hpre.symm
    · simp only [firstOccIdx, hp, if_false, Bool.false_eq_true] at h
      rcases Option.map_eq_some'.mp h with ⟨i', hi', hadd⟩
      have hdec := ih i' hi'
      rw [← hadd]
      have h1 : (c :: rest).take (i' + 1) = c :: rest.take i' := by simp
      have h2 : (c :: rest).drop (i' + 1 + pat.length) = rest.drop (i' + pat.length) := by
        have harith : i' + 1 + pat.length = (i' + pat.length) + 1 := by omega
        rw [harith, List.drop_succ_cons]
      rw [h1, h2]
      conv_lhs => rw [hdec]
      simp

lemma firstOccIdx_drop_at (pat s : List Char) (i : Nat)
    (h : firstOccIdx pat s = some i) :
    s.drop i = pat ++ s.drop (i + pat.length) := by
  have hle := firstOccIdx_some_le pat s i h
  have hdec := firstOccIdx_some_decomp pat s i h
  have hlen : (s.take i).length = i := by
    rw [List.length_take]
    omega
  conv_lhs => rw [hdec]
  rw [List.append_assoc]
  exact List.drop_left' hlen

lemma count_of_firstOcc (c : Char) (pat s : List Char) (i : Nat)
    (h : firstOccIdx pat s = some i) :
    s.count c = (s.take i).count c + pat.count c + (s.drop (i + pat.length)).count c := by
  conv_lhs => rw [firstOccIdx_some_decomp pat s i h]
  simp [List.count_append]
  omega

lemma replaceAllGo_count (c : Char) (pat rep : List Char)
    (hc : pat.count c = rep.count c) (s : List Char) :
    (replaceAllGo pat rep s).count c = s.count c := by
  induction s using replaceAllGo.induct pat rep with
  | case1 => simp [replaceAllGo]
  | case2 c0 rest hpe =>
    simp [replaceAllGo, hpe]
  | case3 c0 rest hpe hpre ih =>
    have hdec := prefixOf_to_eq_append _ _ hpre
    simp only [replaceAllGo, hpe, if_false, Bool.false_eq_true, if_pos hpre]
    rw [List.count_append, ih]
    conv_rhs => rw [← hdec]
    rw [List.count_append]
    omega
  | case4 c0 rest hpe hpre ih =>
    simp only [replaceAllGo, hpe, if_false, Bool.false_eq_true, if_neg hpre]
    simp [List.count_cons, ih]

lemma replaceAllGo_notMem (c : Char) (pat rep : List Char)
    (hrep : c ∉ rep) :
    ∀ (s : List Char), c ∉ s → c ∉ replaceAllGo pat rep s := by
  intro s
  induction s using replaceAllGo.induct pat rep with
  | case1 =>
    intro hs
    simp [replaceAllGo]
  | case2 c0 rest hpe =>
    intro hs
    simpa [replaceAllGo, hpe] using hs
  | case3 c0 rest hpe hpre ih =>
    intro hs
    simp only [replaceAllGo, hpe, if_false, Bool.false_eq_true, if_pos hpre]
    intro hmem
    rcases List.mem_append.mp hmem with hm | hm
    · exact hrep hm
    · have hdrop : c ∉ (c0 :: rest).drop pat.length :=
        fun hh => hs (List.mem_of_mem_drop hh)
      exact ih hdrop hm
  | case4 c0 rest hpe hpre ih =>
    intro hs
    simp only [replaceAllGo, hpe, if_false, Bool.false_eq_true, if_neg hpre]
    intro hmem
    rcases List.mem_cons.mp hmem with hm | hm
    · exact hs (hm ▸ List.mem_cons_self c0 rest)
    · exact ih (fun hh => hs (List.mem_cons_of_mem c0 hh)) hm

lemma swapKwScan_some_count (c : Char) (kw rep : List Char)
    (hkr : kw.count c = rep.count c) :
    ∀ (prev : Option Char) (s r : List Char),
      swapKwScan kw rep prev s = some r → r.count c = s.count c := by
  intro prev s
  induction prev, s using swapKwScan.induct kw rep with
  | case1 p =>
    intro r h
    simp only [swapKwScan, Option.some.injEq] at h
    rw [← h]
  | case2 p c0 rest hpe =>
    intro r h
    unfold swapKwScan at h
    rw [if_pos hpe] at h
    rw [Option.some.injEq] at h
    rw [← h]
  | case3 p c0 rest hpe hpre hdrop =>
    intro r h
    unfold swapKwScan at h
    rw [if_neg hpe, if_pos hpre] at h
    split at h
    · cases h
    · rename_i cA tl2 heq
      rw [hdrop] at heq
      cases heq
  | case4 p c0 rest hpe hpre cAfter tl hdrop hws ih =>
    intro r h
    unfold swapKwScan at h
    rw [if_neg hpe, if_pos hpre] at h
    split at h
    · rename_i heq
      rw [hdrop] at heq
      cases heq
    · rename_i cA tl2 heq
      rw [hdrop] at heq
      cases heq
      rw [if_pos hws] at h
      rcases Option.map_eq_some'.mp h with ⟨r', hr', hr⟩
      have hdec := prefixOf_to_eq_append _ _ hpre
      rw [← hr, List.count_append, ih r' hr']
      conv_rhs => rw [← hdec, hdrop]
      rw [List.count_append]
  | case5 c0 rest hpe hpre cAfter tl hdrop hws =>
    intro r h
    unfold swapKwScan at h
    rw [if_neg hpe, if_pos hpre] at h
    split at h
    · rename_i heq
      rw [hdrop] at heq
      cases heq
    · rename_i cA tl2 heq
      rw [hdrop] at heq
      cases heq
      rw [if_neg hws] at h
      cases h
  | case6 c0 rest hpe hpre cAfter tl hdrop hws cBefore hwsb ih =>
    intro r h
    unfold swapKwScan at h
    rw [if_neg hpe, if_pos hpre] at h
    split at h
    · rename_i heq
      rw [hdrop] at heq
      cases heq
    · rename_i cA tl2 heq
      rw [hdrop] at heq
      cases heq
      rw [if_neg hws] at h
      split at h
      · rename_i heq2
        cases heq2
      · rename_i cb heq2
        cases heq2
        rw [if_pos hwsb] at h
        rcases Option.map_eq_some'.mp h with ⟨r', hr', hr⟩
        have hdec := prefixOf_to_eq_append _ _ hpre
        rw [← hr, List.count_append, ih r' hr']
        conv_rhs => rw [← hdec, hdrop]
        rw [List.count_append]
  | case7 c0 rest hpe hpre cAfter tl hdrop hws cBefore hwsb ih =>
    intro r h
    unfold swapKwScan at h
    rw [if_neg hpe, if_pos hpre] at h
    split at h
    · rename_i heq
      rw [hdrop] at heq
      cases heq
    · rename_i cA tl2 heq
      rw [hdrop] at heq
      cases heq
      rw [if_neg hws] at h
      split at h
      · rename_i heq2
        cases heq2
      · rename_i cb heq2
        cases heq2
        rw [if_neg hwsb] at h
        rcases Option.map_eq_some'.mp h with ⟨r', hr', hr⟩
        have hdec := prefixOf_to_eq_append _ _ hpre
        rw [← hr, List.count_append, ih r' hr']
        conv_rhs => rw [← hdec, hdrop]
        rw [List.count_append]
        omega
  | case8 p c0 rest hpe hpre ih =>
    intro r h
    unfold swapKwScan at h
    rw [if_neg hpe, if_neg hpre] at h
    rcases Option.map_eq_some'.mp h with ⟨r', hr', hr⟩
    rw [← hr]
    simp [List.count_cons, ih r' hr']

lemma swapKwScan_some_notMem (c : Char) (kw rep : List Char) (hrep : c ∉ rep) :
    ∀ (prev : Option Char) (s r : List Char),
      swapKwScan kw rep prev s = some r → c ∉ s → c ∉ r := by
  intro prev s
  induction prev, s using swapKwScan.induct kw rep with
  | case1 p =>
    intro r h hs
    simp only [swapKwScan, Option.some.injEq] at h
    rw [← h]
    exact hs
  | case2 p c0 rest hpe =>
    intro r h hs
    unfold swapKwScan at h
    rw [if_pos hpe, Option.some.injEq] at h
    rw [← h]
    exact hs
  | case3 p c0 rest hpe hpre hdrop =>
    intro r h hs
    unfold swapKwScan at h
    rw [if_neg hpe, if_pos hpre] at h
    split at h
    · cases h
    · rename_i cA tl2 heq
      rw [hdrop] at heq
      cases heq
  | case4 p c0 rest hpe hpre cAfter tl hdrop hws ih =>
    intro r h hs
    unfold swapKwScan at h
    rw [if_neg hpe, if_pos hpre] at h
    split at h
    · rename_i heq
      rw [hdrop] at heq
      cases heq
    · rename_i cA tl2 heq
      rw [hdrop] at heq
      cases heq
      rw [if_pos hws] at h
      rcases Option.map_eq_some'.mp h with ⟨r', hr', hr⟩
      have hdec := prefixOf_to_eq_append _ _ hpre
      have hkw : c ∉ kw := by
        intro hm
        apply hs
        rw [← hdec]
        exact List.mem_append.mpr (Or.inl hm)
      have hdropm : c ∉ cAfter :: tl := by
        rw [← hdrop]
        exact fun hh => hs (List.mem_of_mem_drop hh)
      rw [← hr]
      intro hm
      rcases List.mem_append.mp hm with hm2 | hm2
      · exact hkw hm2
      · exact ih r' hr' hdropm hm2
  | case5 c0 rest hpe hpre cAfter tl hdrop hws =>
    intro r h hs
    unfold swapKwScan at h
    rw [if_neg hpe, if_pos hpre] at h
    split at h
    · rename_i heq
      rw [hdrop] at heq
      cases heq
    · rename_i cA tl2 heq
      rw [hdrop] at heq
      cases heq
      rw [if_neg hws] at h
      cases h
  | case6 c0 rest hpe hpre cAfter tl hdrop hws cBefore hwsb ih =>
    intro r h hs
    unfold swapKwScan at h
    rw [if_neg hpe, if_pos hpre] at h
    split at h
    · rename_i heq
      rw [hdrop] at heq
      cases heq
    · rename_i cA tl2 heq
      rw [hdrop] at heq
      cases heq
      rw [if_neg hws] at h
      split at h
      · rename_i heq2
        cases heq2
      · rename_i cb heq2
        cases heq2
        rw [if_pos hwsb] at h
        rcases Option.map_eq_some'.mp h with ⟨r', hr', hr⟩
        have hdec := prefixOf_to_eq_append _ _ hpre
        have hkw : c ∉ kw := by
          intro hm
          apply hs
          rw [← hdec]
          exact List.mem_append.mpr (Or.inl hm)
        have hdropm : c ∉ cAfter :: tl := by
          rw [← hdrop]
          exact fun hh => hs (List.mem_of_mem_drop hh)
        rw [← hr]
        intro hm
        rcases List.mem_append.mp hm with hm2 | hm2
        · exact hkw hm2
        · exact ih r' hr' hdropm hm2
  | case7 c0 rest hpe hpre cAfter tl hdrop hws cBefore hwsb ih =>
    intro r h hs
    unfold swapKwScan at h
    rw [if_neg hpe, if_pos hpre] at h
    split at h
    · rename_i heq
      rw [hdrop] at heq
      cases heq
    · rename_i cA tl2 heq
      rw [hdrop] at heq
      cases heq
      rw [if_neg hws] at h
      split at h
      · rename_i heq2
        cases heq2
      · rename_i cb heq2
        cases heq2
        rw [if_neg hwsb] at h
        rcases Option.map_eq_some'.mp h with ⟨r', hr', hr⟩
        have hdropm : c ∉ cAfter :: tl := by
          rw [← hdrop]
          exact fun hh => hs (List.mem_of_mem_drop hh)
        rw [← hr]
        intro hm
        rcases List.mem_append.mp hm with hm2 | hm2
        · exact hrep hm2
        · exact ih r' hr' hdropm hm2
  | case8 p c0 rest hpe hpre ih =>
    intro r h hs
    unfold swapKwScan at h
    rw [if_neg hpe, if_neg hpre] at h
    rcases Option.map_eq_some'.mp h with ⟨r', hr', hr⟩
    rw [← hr]
    intro hm
    rcases List.mem_cons.mp hm with hm2 | hm2
    · exact hs (hm2 ▸ List.mem_cons_self c0 rest)
    · exact ih r' hr' (fun hh => hs (List.mem_cons_of_mem c0 hh)) hm2

lemma dropWhile_count (c : Char) (p : Char → Bool)
    (h : ∀ x, p x = true → x ≠ c) :
    ∀ s : List Char, (s.dropWhile p).count c = s.count c := by
  intro s
  induction s with
  | nil => simp
  | cons a rest ih =>
    by_cases hp : p a
    · have hne : (a == c) = false := by
        simp [h a hp]
      simp [List.dropWhile_cons, hp, ih, List.count_cons, hne]
    · simp [List.dropWhile_cons, hp]

lemma trimSpaceGo_count (c : Char) (hc : isGoSpace c = false) (s : List Char) :
    (trimSpaceGo s).count c = s.count c := by
  have hp : ∀ x, isGoSpace x = true → x ≠ c := by
    intro x hx hxc
    rw [hxc, hc] at hx
    cases hx
  unfold trimSpaceGo
  rw [List.count_reverse, dropWhile_count c isGoSpace hp, List.count_reverse,
    dropWhile_count c isGoSpace hp]

lemma trimSpaceGo_subset (s : List Char) : ∀ c, c ∈ trimSpaceGo s → c ∈ s := by
  intro c hm
  unfold trimSpaceGo at hm
  rw [List.mem_reverse] at hm
  have h1 := (List.dropWhile_sublist (l := (s.dropWhile isGoSpace).reverse) isGoSpace).subset hm
  rw [List.mem_reverse] at h1
  exact (List.dropWhile_sublist (l := s) isGoSpace).subset h1

lemma digit_char_isDigit (m : Nat) (hm : m < 10) :
    (Char.ofNat (48 + m)).isDigit = true := by
  interval_cases m <;> decide

lemma natChars_isDigit (n : Nat) : ∀ c ∈ natChars n, c.isDigit = true := by
  induction n using natChars.induct with
  | case1 n hn =>
    intro c hc
    unfold natChars at hc
    rw [dif_pos hn] at hc
    rcases List.mem_singleton.mp hc with rfl
    exact digit_char_isDigit n hn
  | case2 n hn ih =>
    intro c hc
    unfold natChars at hc
    rw [dif_neg hn] at hc
    rcases List.mem_append.mp hc with hm | hm
    · exact ih c hm
    · rcases List.mem_singleton.mp hm with rfl
      exact digit_char_isDigit (n % 10) (Nat.mod_lt n (by omega))

lemma natChars_notMem_of_notDigit (pc : Char) (hpc : pc.isDigit = false) (n : Nat) :
    pc ∉ natChars n := by
  intro hm
  have := natChars_isDigit n pc hm
  rw [hpc] at this
  cases this

lemma countTok_append (pc : Char) (B : List Char) :
    ∀ A : List Char, countTok pc (A ++ B) = countTok pc A + straddleTok pc A B + countTok pc B := by
  intro A
  induction A with
  | nil => simp [countTok, straddleTok]
  | cons a A2 ih =>
    cases A2 with
    | nil =>
      cases B with
      | nil => simp [countTok, straddleTok]
      | cons b B2 => simp [countTok, straddleTok]
    | cons a2 A3 =>
      have h1 : (a :: a2 :: A3) ++ B = a :: ((a2 :: A3) ++ B) := rfl
      rw [h1]
      have h2 : (a2 :: A3) ++ B = a2 :: (A3 ++ B) := rfl
      rw [h2]
      show (if a = pc ∧ a2.isDigit then 1 else 0) + countTok pc (a2 :: (A3 ++ B)) = _
      rw [← h2, ih]
      have h3 : countTok pc (a :: a2 :: A3) =
          (if a = pc ∧ a2.isDigit then 1 else 0) + countTok pc (a2 :: A3) := rfl
      rw [h3]
      have h4 : straddleTok pc (a :: a2 :: A3) B = straddleTok pc (a2 :: A3) B := by
        simp [straddleTok, List.getLast?_cons_cons]
      rw [h4]
      omega

lemma countTok_take_drop_zero (pc : Char) (q : List Char) (i : Nat)
    (h : countTok pc q = 0) :
    countTok pc (q.take i) = 0 ∧ countTok pc (q.drop i) = 0 := by
  have := countTok_append pc (q.drop i) (q.take i)
  rw [List.take_append_drop] at this
  omega

lemma countTok_eq_zero_of_forall (pc : Char) :
    ∀ A : List Char, (∀ x ∈ A, x ≠ pc) → countTok pc A = 0 := by
  intro A
  induction A with
  | nil => intro h; rfl
  | cons a A2 ih =>
    intro h
    cases A2 with
    | nil => rfl
    | cons b t =>
      show (if a = pc ∧ b.isDigit then 1 else 0) + countTok pc (b :: t) = 0
      rw [if_neg (by
        intro hc
        exact h a (List.mem_cons_self a _) hc.1)]
      rw [ih (fun x hx => h x (List.mem_cons_of_mem a hx))]

lemma straddleTok_zero_of_head (pc : Char) (A B : List Char)
    (h : ∀ d, B.head? = some d → d.isDigit = false) :
    straddleTok pc A B = 0 := by
  unfold straddleTok
  cases hA : A.getLast? with
  | none => rfl
  | some x =>
    cases hB : B.head? with
    | none => rfl
    | some y =>
      show (if x = pc ∧ y.isDigit = true then 1 else 0) = 0
      rw [if_neg (by
        intro hc
        rw [h y hB] at hc
        exact Bool.false_ne_true hc.2)]

lemma straddleTok_zero_of_last (pc : Char) (A B : List Char)
    (h : ∀ d, A.getLast? = some d → d ≠ pc) :
    straddleTok pc A B = 0 := by
  unfold straddleTok
  cases hA : A.getLast? with
  | none => rfl
  | some x =>
    cases hB : B.head? with
    | none => rfl
    | some y =>
      show (if x = pc ∧ y.isDigit = true then 1 else 0) = 0
      rw [if_neg (by
        intro hc
        exact h x hA hc.1)]

lemma countTok_cons_zero (pc : Char) (c : Char) (t : List Char)
    (h : countTok pc (c :: t) = 0) : countTok pc t = 0 := by
  cases t with
  | nil => rfl
  | cons b t2 =>
    have : countTok pc (c :: b :: t2) =
        (if c = pc ∧ b.isDigit then 1 else 0) + countTok pc (b :: t2) := rfl
    omega

lemma natChars_ne_nil (n : Nat) : natChars n ≠ [] := by
  unfold natChars
  split
  · simp
  · simp

lemma renumAux_head (pc : Char) (i : Nat) (b : Char) (t : List Char) :
    (renumAux [pc] i (b :: t)).head? = some (if b = '?' then pc else b) := by
  by_cases hb : b = '?'
  · subst hb
    simp [renumAux]
  · simp [renumAux, hb]

lemma renumAux_countTok (pc : Char) (hq : pc ≠ '?') (hd : pc.isDigit = false) :
    ∀ (s : List Char) (i : Nat), countTok pc s = 0 →
      countTok pc (renumAux [pc] i s) = s.count '?' := by
  intro s
  induction s with
  | nil =>
    intro i hs
    simp [renumAux, countTok]
  | cons c rest ih =>
    intro i hs
    have hrest : countTok pc rest = 0 := countTok_cons_zero pc c rest hs
    by_cases hc : c = '?'
    · subst hc
      have hr : renumAux [pc] i ('?' :: rest) =
          [pc] ++ (natChars i ++ renumAux [pc] (i + 1) rest) := by
        simp [renumAux]
      rw [hr]
      cases hnc : natChars i with
      | nil => exact absurd hnc (natChars_ne_nil i)
      | cons d ds =>
        have hdd : d.isDigit = true := natChars_isDigit i d (by rw [hnc]; exact List.mem_cons_self d ds)
        have h1 : [pc] ++ ((d :: ds) ++ renumAux [pc] (i + 1) rest) =
            pc :: d :: (ds ++ renumAux [pc] (i + 1) rest) := rfl
        rw [h1]
        show (if pc = pc ∧ d.isDigit then 1 else 0)
            + countTok pc (d :: (ds ++ renumAux [pc] (i + 1) rest)) = _
        rw [if_pos ⟨rfl, hdd⟩]
        have h2 : d :: (ds ++ renumAux [pc] (i + 1) rest) =
            (d :: ds) ++ renumAux [pc] (i + 1) rest := rfl
        rw [h2, countTok_append]
        have h3 : countTok pc (d :: ds) = 0 := by
          apply countTok_eq_zero_of_forall
          intro x hx hxpc
          have := natChars_isDigit i x (by rw [hnc]; exact hx)
          rw [hxpc, hd] at this
          cases this
        have h4 : straddleTok pc (d :: ds) (renumAux [pc] (i + 1) rest) = 0 := by
          apply straddleTok_zero_of_last
          intro e he hepc
          have hmem : e ∈ d :: ds := by
            rcases List.mem_getLast?_eq_getLast (l := d :: ds) (x := e) he with ⟨hne, heq⟩
            rw [heq]
            exact List.getLast_mem hne
          have := natChars_isDigit i e (by rw [hnc]; exact hmem)
          rw [hepc, hd] at this
          cases this
        rw [h3, h4, ih (i + 1) hrest]
        simp [List.count_cons]
        omega
    · have hr : renumAux [pc] i (c :: rest) = c :: renumAux [pc] i rest := by
        simp [renumAux, hc]
      rw [hr]
      have hcount : (c :: rest).count '?' = rest.count '?' := by
        simp [List.count_cons, hc]
      rw [hcount]
      cases rest with
      | nil =>
        simp [renumAux, countTok]
      | cons b t =>
        cases hrw : renumAux [pc] i (b :: t) with
        | nil =>
          have := renumAux_head pc i b t
          rw [hrw] at this
          cases this
        | cons r1 rs =>
          show (if c = pc ∧ r1.isDigit then 1 else 0) + countTok pc (r1 :: rs) = _
          have hh := renumAux_head pc i b t
          rw [hrw] at hh
          have hr1 : r1 = if b = '?' then pc else b := Option.some_inj.mp hh
          have hshape : countTok pc (c :: b :: t) =
              (if c = pc ∧ b.isDigit then 1 else 0) + countTok pc (b :: t) := rfl
          rw [hshape] at hs
          have hp0 : (if c = pc ∧ b.isDigit then 1 else 0) = 0 := by omega
          have hpair : (if c = pc ∧ r1.isDigit then 1 else 0) = 0 := by
            rw [if_neg]
            intro hcon
            by_cases hbq : b = '?'
            · rw [if_pos hbq] at hr1
              rw [hr1, hd] at hcon
              exact Bool.false_ne_true hcon.2
            · rw [if_neg hbq] at hr1
              by_cases hbd : b.isDigit = true
              · rw [if_pos ⟨hcon.1, hbd⟩] at hp0
                cases hp0
              · rw [hr1] at hcon
                exact hbd hcon.2
          rw [hpair, ← hrw, ih i hrest]
          omega

lemma forall_head_eq {y : Char} (B : List Char) (hB : B.head? = some y)
    (P : Char → Prop) (hy : P y) : ∀ d, B.head? = some d → P d := by
  intro d hd
  rw [hB] at hd
  injection hd with h
  rw [← h]
  exact hy

lemma forall_last_eq {y : Char} (A : List Char) (hA : A.getLast? = some y)
    (P : Char → Prop) (hy : P y) : ∀ d, A.getLast? = some d → P d := by
  intro d hd
  rw [hA] at hd
  injection hd with h
  rw [← h]
  exact hy

lemma forall_head_of_all (B : List Char)
    (h : Option.all (fun d => !d.isDigit) B.head? = true) :
    ∀ d, B.head? = some d → d.isDigit = false := by
  intro d hd
  rw [hd] at h
  simpa using h

lemma forall_last_of_all (pc : Char) (A : List Char)
    (h : Option.all (fun d => !(d == pc)) A.getLast? = true) :
    ∀ d, A.getLast? = some d → d ≠ pc := by
  intro d hd
  rw [hd] at h
  simpa using h

lemma replaceAllGo_head (pat rep : List Char) (hrepne : rep ≠ []) :
    ∀ s : List Char,
      (replaceAllGo pat rep s).head? = s.head? ∨ (replaceAllGo pat rep s).head? = rep.head? := by
  intro s
  induction s using replaceAllGo.induct pat rep with
  | case1 => left; simp [replaceAllGo]
  | case2 c0 rest hpe => left; simp [replaceAllGo, hpe]
  | case3 c0 rest hpe hpre ih =>
    right
    simp only [replaceAllGo, hpe, if_false, Bool.false_eq_true, if_pos hpre]
    exact List.head?_append_of_ne_nil rep hrepne
  | case4 c0 rest hpe hpre ih =>
    left
    simp only [replaceAllGo, hpe, if_false, Bool.false_eq_true, if_neg hpre]
    rfl

lemma replaceAllGo_countTok (pc : Char) (pat rep : List Char) (hrepne : rep ≠ [])
    (hhead : ∀ d, rep.head? = some d → d.isDigit = false)
    (hlast : ∀ d, rep.getLast? = some d → d ≠ pc)
    (hrept : countTok pc rep = 0) :
    ∀ s : List Char, countTok pc s = 0 → countTok pc (replaceAllGo pat rep s) = 0 := by
  intro s
  induction s using replaceAllGo.induct pat rep with
  | case1 =>
    intro hs
    simp [replaceAllGo, countTok]
  | case2 c0 rest hpe =>
    intro hs
    simpa [replaceAllGo, hpe] using hs
  | case3 c0 rest hpe hpre ih =>
    intro hs
    simp only [replaceAllGo, hpe, if_false, Bool.false_eq_true, if_pos hpre]
    have hdrop0 : countTok pc ((c0 :: rest).drop pat.length) = 0 :=
      (countTok_take_drop_zero pc _ pat.length hs).2
    rw [countTok_append, ih hdrop0, hrept, straddleTok_zero_of_last pc _ _ hlast]
  | case4 c0 rest hpe hpre ih =>
    intro hs
    simp only [replaceAllGo, hpe, if_false, Bool.false_eq_true, if_neg hpre]
    have hrest : countTok pc rest = 0 := countTok_cons_zero pc c0 rest hs
    have hrec := ih hrest
    cases hrw : replaceAllGo pat rep rest with
    | nil => rfl
    | cons r1 rs =>
      show (if c0 = pc ∧ r1.isDigit then 1 else 0) + countTok pc (r1 :: rs) = 0
      have h2 : countTok pc (r1 :: rs) = 0 := by rw [← hrw]; exact hrec
      have hpair : (if c0 = pc ∧ r1.isDigit then 1 else 0) = 0 := by
        rw [if_neg]
        intro hcon
        have hhd := replaceAllGo_head pat rep hrepne rest
        rw [hrw] at hhd
        rcases hhd with hl | hr2
        · cases rest with
          | nil => cases hl
          | cons b t =>
            have hb : r1 = b := by
              injection hl with hh
            rw [hb] at hcon
            have hshape : countTok pc (c0 :: b :: t) =
                (if c0 = pc ∧ b.isDigit then 1 else 0) + countTok pc (b :: t) := rfl
            rw [hshape] at hs
            rw [if_pos hcon] at hs
            omega
        · have := hhead r1 hr2.symm
          rw [this] at hcon
          exact Bool.false_ne_true hcon.2
      omega

lemma swapKwScan_head (kw rep : List Char) (hrepne : rep ≠ []) :
    ∀ (prev : Option Char) (s r : List Char), swapKwScan kw rep prev s = some r →
      r.head? = s.head? ∨ r.head? = rep.head? := by
  intro prev s
  induction prev, s using swapKwScan.induct kw rep with
  | case1 p =>
    intro r h
    left
    simp only [swapKwScan, Option.some.injEq] at h
    rw [← h]
  | case2 p c0 rest hpe =>
    intro r h
    left
    unfold swapKwScan at h
    rw [if_pos hpe, Option.some.injEq] at h
    rw [← h]
  | case3 p c0 rest hpe hpre hdrop =>
    intro r h
    unfold swapKwScan at h
    rw [if_neg hpe, if_pos hpre] at h
    split at h
    · cases h
    · rename_i cA tl2 heq
      rw [hdrop] at heq
      cases heq
  | case4 p c0 rest hpe hpre cAfter tl hdrop hws ih =>
    intro r h
    unfold swapKwScan at h
    rw [if_neg hpe, if_pos hpre] at h
    split at h
    · rename_i heq
      rw [hdrop] at heq
      cases heq
    · rename_i cA tl2 heq
      rw [hdrop] at heq
      cases heq
      rw [if_pos hws] at h
      rcases Option.map_eq_some'.mp h with ⟨r', hr', hr⟩
      left
      rw [← hr]
      have hdec := prefixOf_to_eq_append _ _ hpre
      have hkne : kw ≠ [] := by
        intro hk
        rw [hk] at hpe
        exact hpe rfl
      rw [List.head?_append_of_ne_nil kw hkne]
      conv_rhs => rw [← hdec]
      rw [List.head?_append_of_ne_nil kw hkne]
  | case5 c0 rest hpe hpre cAfter tl hdrop hws =>
    intro r h
    unfold swapKwScan at h
    rw [if_neg hpe, if_pos hpre] at h
    split at h
    · rename_i heq
      rw [hdrop] at heq
      cases heq
    · rename_i cA tl2 heq
      rw [hdrop] at heq
      cases heq
      rw [if_neg hws] at h
      cases h
  | case6 c0 rest hpe hpre cAfter tl hdrop hws cBefore hwsb ih =>
    intro r h
    unfold swapKwScan at h
    rw [if_neg hpe, if_pos hpre] at h
    split at h
    · rename_i heq
      rw [hdrop] at heq
      cases heq
    · rename_i cA tl2 heq
      rw [hdrop] at heq
      cases heq
      rw [if_neg hws] at h
      split at h
      · rename_i heq2
        cases heq2
      · rename_i cb heq2
        cases heq2
        rw [if_pos hwsb] at h
        rcases Option.map_eq_some'.mp h with ⟨r', hr', hr⟩
        left
        rw [← hr]
        have hdec := prefixOf_to_eq_append _ _ hpre
        have hkne : kw ≠ [] := by
          intro hk
          rw [hk] at hpe
          exact hpe rfl
        rw [List.head?_append_of_ne_nil kw hkne]
        conv_rhs => rw [← hdec]
        rw [List.head?_append_of_ne_nil kw hkne]
  | case7 c0 rest hpe hpre cAfter tl hdrop hws cBefore hwsb ih =>
    intro r h
    unfold swapKwScan at h
    rw [if_neg hpe, if_pos hpre] at h
    split at h
    · rename_i heq
      rw [hdrop] at heq
      cases heq
    · rename_i cA tl2 heq
      rw [hdrop] at heq
      cases heq
      rw [if_neg hws] at h
      split at h
      · rename_i heq2
        cases heq2
      · rename_i cb heq2
        cases heq2
        rw [if_neg hwsb] at h
        rcases Option.map_eq_some'.mp h with ⟨r', hr', hr⟩
        right
        rw [← hr]
        exact List.head?_append_of_ne_nil rep hrepne
  | case8 p c0 rest hpe hpre ih =>
    intro r h
    unfold swapKwScan at h
    rw [if_neg hpe, if_neg hpre] at h
    rcases Option.map_eq_some'.mp h with ⟨r', hr', hr⟩
    left
    rw [← hr]
    rfl

lemma swapKwScan_countTok (pc : Char) (kw rep : List Char) (hrepne : rep ≠ [])
    (hheadr : ∀ d, rep.head? = some d → d.isDigit = false)
    (hlastr : ∀ d, rep.getLast? = some d → d ≠ pc)
    (hlastk : ∀ d, kw.getLast? = some d → d ≠ pc)
    (hrept : countTok pc rep = 0)
    (hkwt : countTok pc kw = 0) :
    ∀ (prev : Option Char) (s r : List Char),
      swapKwScan kw rep prev s = some r → countTok pc s = 0 → countTok pc r = 0 := by
  intro prev s
  induction prev, s using swapKwScan.induct kw rep with
  | case1 p =>
    intro r h hs
    simp only [swapKwScan, Option.some.injEq] at h
    rw [← h]
    rfl
  | case2 p c0 rest hpe =>
    intro r h hs
    unfold swapKwScan at h
    rw [if_pos hpe, Option.some.injEq] at h
    rw [← h]
    exact hs
  | case3 p c0 rest hpe hpre hdrop =>
    intro r h hs
    unfold swapKwScan at h
    rw [if_neg hpe, if_pos hpre] at h
    split at h
    · cases h
    · rename_i cA tl2 heq
      rw [hdrop] at heq
      cases heq
  | case4 p c0 rest hpe hpre cAfter tl hdrop hws ih =>
    intro r h hs
    unfold swapKwScan at h
    rw [if_neg hpe, if_pos hpre] at h
    split at h
    · rename_i heq
      rw [hdrop] at heq
      cases heq
    · rename_i cA tl2 heq
      rw [hdrop] at heq
      cases heq
      rw [if_pos hws] at h
      rcases Option.map_eq_some'.mp h with ⟨r', hr', hr⟩
      have hsub : countTok pc (cAfter :: tl) = 0 := by
        rw [← hdrop]
        exact (countTok_take_drop_zero pc _ kw.length hs).2
      rw [← hr, countTok_append, ih r' hr' hsub, hkwt,
        straddleTok_zero_of_last pc _ _ hlastk]
  | case5 c0 rest hpe hpre cAfter tl hdrop hws =>
    intro r h hs
    unfold swapKwScan at h
    rw [if_neg hpe, if_pos hpre] at h
    split at h
    · rename_i heq
      rw [hdrop] at heq
      cases heq
    · rename_i cA tl2 heq
      rw [hdrop] at heq
      cases heq
      rw [if_neg hws] at h
      cases h
  | case6 c0 rest hpe hpre cAfter tl hdrop hws cBefore hwsb ih =>
    intro r h hs
    unfold swapKwScan at h
    rw [if_neg hpe, if_pos hpre] at h
    split at h
    · rename_i heq
      rw [hdrop] at heq
      cases heq
    · rename_i cA tl2 heq
      rw [hdrop] at heq
      cases heq
      rw [if_neg hws] at h
      split at h
      · rename_i heq2
        cases heq2
      · rename_i cb heq2
        cases heq2
        rw [if_pos hwsb] at h
        rcases Option.map_eq_some'.mp h with ⟨r', hr', hr⟩
        have hsub : countTok pc (cAfter :: tl) = 0 := by
          rw [← hdrop]
          exact (countTok_take_drop_zero pc _ kw.length hs).2
        rw [← hr, countTok_append, ih r' hr' hsub, hkwt,
          straddleTok_zero_of_last pc _ _ hlastk]
  | case7 c0 rest hpe hpre cAfter tl hdrop hws cBefore hwsb ih =>
    intro r h hs
    unfold swapKwScan at h
    rw [if_neg hpe, if_pos hpre] at h
    split at h
    · rename_i heq
      rw [hdrop] at heq
      cases heq
    · rename_i cA tl2 heq
      rw [hdrop] at heq
      cases heq
      rw [if_neg hws] at h
      split at h
      · rename_i heq2
        cases heq2
      · rename_i cb heq2
        cases heq2
        rw [if_neg hwsb] at h
        rcases Option.map_eq_some'.mp h with ⟨r', hr', hr⟩
        have hsub : countTok pc (cAfter :: tl) = 0 := by
          rw [← hdrop]
          exact (countTok_take_drop_zero pc _ kw.length hs).2
        rw [← hr, countTok_append, ih r' hr' hsub, hrept,
          straddleTok_zero_of_last pc _ _ hlastr]
  | case8 p c0 rest hpe hpre ih =>
    intro r h hs
    unfold swapKwScan at h
    rw [if_neg hpe, if_neg hpre] at h
    rcases Option.map_eq_some'.mp h with ⟨r', hr', hr⟩
    have hrest : countTok pc rest = 0 := countTok_cons_zero pc c0 rest hs
    have hrec := ih r' hr' hrest
    rw [← hr]
    cases hrw2 : r' with
    | nil => rfl
    | cons r1 rs =>
      show (if c0 = pc ∧ r1.isDigit then 1 else 0) + countTok pc (r1 :: rs) = 0
      have h2 : countTok pc (r1 :: rs) = 0 := by rw [← hrw2]; exact hrec
      have hpair : (if c0 = pc ∧ r1.isDigit then 1 else 0) = 0 := by
        rw [if_neg]
        intro hcon
        have hhd := swapKwScan_head kw rep hrepne (some c0) rest r' hr'
        rw [hrw2] at hhd
        rcases hhd with hl | hr2
        · cases rest with
          | nil => cases hl
          | cons b t =>
            have hb : r1 = b := by
              injection hl
            rw [hb] at hcon
            have hshape : countTok pc (c0 :: b :: t) =
                (if c0 = pc ∧ b.isDigit then 1 else 0) + countTok pc (b :: t) := rfl
            rw [hshape] at hs
            rw [if_pos hcon] at hs
            omega
        · have := hheadr r1 hr2.symm
          rw [this] at hcon
          exact Bool.false_ne_true hcon.2
      omega

lemma replaceParamPlaceHolders_empty (pq : PreparedQuery) (hp : pq.paramPfx = []) :
    replaceParamPlaceHolders pq = pq := by
  simp [replaceParamPlaceHolders, hp]

lemma replaceParamPlaceHolders_countTok (pq : PreparedQuery) (pc : Char)
    (hp : pq.paramPfx = [pc]) (h1 : countTok pc pq.Query = 0) (h2 : pc ≠ '?')
    (h3 : pc.isDigit = false) :
    countPlaceholders pq.paramPfx (replaceParamPlaceHolders pq).Query = pq.Query.count '?'
    ∧ (replaceParamPlaceHolders pq).Args = pq.Args := by
  unfold replaceParamPlaceHolders
  by_cases hocc : (firstOccIdx (gs "?") pq.Query).isNone
  · have hnone : firstOccIdx ['?'] pq.Query = none := by
      rw [Option.isNone_iff_eq_none] at hocc
      exact hocc
    have hnoq : '?' ∉ pq.Query := (firstOccIdx_singleton_none_iff '?' pq.Query).mp hnone
    rw [if_pos (by simp [hocc])]
    constructor
    · rw [hp]
      show countTok pc pq.Query = pq.Query.count '?'
      rw [h1, List.count_eq_zero_of_not_mem hnoq]
    · rfl
  · rw [if_neg (by simp [hocc, hp])]
    constructor
    · simp only [hp]
      show countTok pc (renumAux [pc] 1 pq.Query) = pq.Query.count '?'
      exact renumAux_countTok pc h2 h3 pq.Query 1 h1
    · rfl

lemma swapLastTwo_reverse (args : List GoVal) (b a : GoVal) (t : List GoVal)
    (h : args.reverse = b :: a :: t) : (swapLastTwo args).reverse = a :: b :: t := by
  unfold swapLastTwo
  split
  · rename_i b2 a2 t2 heq
    rw [h] at heq
    cases heq
    simp
  · rename_i hno
    exact absurd h (hno b a t)

lemma findLimitIdx_props (q : List Char) (i : Nat) (h : findLimitIdx q = some i) :
    ∃ pat, firstOccIdx pat q = some i ∧ pat.count '?' = 1 ∧ pat.length = 7
      ∧ ':' ∉ pat ∧ '$' ∉ pat := by
  rcases orElse_eq_some_cases _ _ _ h with h1 | ⟨-, h1⟩
  · exact ⟨gs "LIMIT ?", h1, by decide, by decide, by decide, by decide⟩
  · exact ⟨gs "limit ?", h1, by decide, by decide, by decide, by decide⟩

lemma findOffsetIdx_props (q : List Char) (i : Nat) (h : findOffsetIdx q = some i) :
    ∃ pat, firstOccIdx pat q = some i ∧ pat.count '?' = 1 ∧ pat.length = 8
      ∧ ':' ∉ pat ∧ '$' ∉ pat := by
  rcases orElse_eq_some_cases _ _ _ h with h1 | ⟨-, h1⟩
  · exact ⟨gs "OFFSET ?", h1, by decide, by decide, by decide, by decide⟩
  · exact ⟨gs "offset ?", h1, by decide, by decide, by decide, by decide⟩

lemma fetchLO_limit_only (pq : PreparedQuery) (i1 : Nat)
    (h1 : findLimitIdx pq.Query = some i1)
    (h2 : findOffsetIdx pq.Query = none) :
    fetchLimitAndOffset pq = some { pq with
      Query := pq.Query.take i1 ++ gs "OFFSET 0 ROWS\nFETCH NEXT ? ROWS ONLY"
        ++ pq.Query.drop (i1 + 7) } := by
  simp only [fetchLimitAndOffset, h1, h2]

lemma fetchLO_offset_only (pq : PreparedQuery) (i2 : Nat)
    (h1 : findLimitIdx pq.Query = none)
    (h2 : findOffsetIdx pq.Query = some i2) :
    fetchLimitAndOffset pq = some { pq with
      Query := if (firstOccIdx (gs "OFFSET ?") pq.Query).isNone then
          replaceAllGo (gs "offset ?") (gs "OFFSET ? ROWS") pq.Query
        else replaceAllGo (gs "OFFSET ?") (gs "OFFSET ? ROWS") pq.Query } := by
  by_cases hup : (firstOccIdx (gs "OFFSET ?") pq.Query).isNone
  · simp only [fetchLimitAndOffset, h1, h2, hup, if_true]
  · simp only [fetchLimitAndOffset, h1, h2]
    rw [if_neg hup, if_neg hup]

lemma fetchLO_no_pag (pq : PreparedQuery)
    (h1 : findLimitIdx pq.Query = none)
    (h2 : findOffsetIdx pq.Query = none) :
    fetchLimitAndOffset pq = some pq := by
  simp only [fetchLimitAndOffset, h1, h2]

lemma drop_split_at (q : List Char) (a b : Nat) (hab : a ≤ b) :
    q.drop a = (q.drop a).take (b - a) ++ q.drop b := by
  conv_lhs => rw [← List.take_append_drop (b - a) (q.drop a)]
  rw [List.drop_drop]
  congr 2
  omega

lemma fetch_some_count (pq r : PreparedQuery)
    (h : fetchLimitAndOffset pq = some r) :
    r.Query.count '?' = pq.Query.count '?' ∧ r.Args.length = pq.Args.length := by
  cases hL : findLimitIdx pq.Query with
  | some i1 =>
    cases hO : findOffsetIdx pq.Query with
    | some i2 =>
      by_cases hord : i1 + 7 ≤ i2
      · rw [fetchLO_both pq i1 i2 hL hO hord] at h
        cases h
        rcases findLimitIdx_props _ _ hL with ⟨pat1, hp1, hc1, hl1, -⟩
        rcases findOffsetIdx_props _ _ hO with ⟨pat2, hp2, hc2, hl2, -⟩
        constructor
        · have e1 : pq.Query.count '?' =
              (pq.Query.take i1).count '?' + 1 + (pq.Query.drop (i1 + 7)).count '?' := by
            have := count_of_firstOcc '?' pat1 pq.Query i1 hp1
            rw [hc1, hl1] at this
            exact this
          have e2 : pq.Query.drop (i1 + 7) =
              (pq.Query.drop (i1 + 7)).take (i2 - (i1 + 7)) ++ pq.Query.drop i2 :=
            drop_split_at pq.Query (i1 + 7) i2 hord
          have e3 : (pq.Query.drop i2).count '?' = 1 + (pq.Query.drop (i2 + 8)).count '?' := by
            have hdr := firstOccIdx_drop_at pat2 pq.Query i2 hp2
            rw [hl2] at hdr
            rw [hdr, List.count_append, hc2]
          simp only [List.count_append]
          have e4 : (gs "OFFSET ? ROWS").count '?' = 1 := by decide
          have e5 : (gs "FETCH NEXT ? ROWS ONLY").count '?' = 1 := by decide
          rw [e4, e5, e1]
          conv_rhs => rw [e2]
          rw [List.count_append, e3]
          omega
        · exact swapLastTwo_length pq.Args
      · have : fetchLimitAndOffset pq = none := by
          simp only [fetchLimitAndOffset, hL, hO, hord, if_false]
        rw [this] at h
        cases h
    | none =>
      rw [fetchLO_limit_only pq i1 hL hO] at h
      cases h
      rcases findLimitIdx_props _ _ hL with ⟨pat1, hp1, hc1, hl1, -⟩
      constructor
      · have e1 : pq.Query.count '?' =
            (pq.Query.take i1).count '?' + 1 + (pq.Query.drop (i1 + 7)).count '?' := by
          have := count_of_firstOcc '?' pat1 pq.Query i1 hp1
          rw [hc1, hl1] at this
          exact this
        simp only [List.count_append]
        have e4 : (gs "OFFSET 0 ROWS\nFETCH NEXT ? ROWS ONLY").count '?' = 1 := by decide
        rw [e4, e1]
      · rfl
  | none =>
    cases hO : findOffsetIdx pq.Query with
    | some i2 =>
      rw [fetchLO_offset_only pq i2 hL hO] at h
      cases h
      constructor
      · by_cases hup : (firstOccIdx (gs "OFFSET ?") pq.Query).isNone
        · rw [if_pos hup]
          exact replaceAllGo_count '?' _ _ (by decide) pq.Query
        · rw [if_neg hup]
          exact replaceAllGo_count '?' _ _ (by decide) pq.Query
      · rfl
    | none =>
      rw [fetchLO_no_pag pq hL hO] at h
      cases h
      exact ⟨rfl, rfl⟩

lemma fetch_some_notMem (c : Char) (pq r : PreparedQuery)
    (h : fetchLimitAndOffset pq = some r)
    (hq : c ∉ pq.Query)
    (hlit1 : c ∉ gs "OFFSET ? ROWS")
    (hlit2 : c ∉ gs "FETCH NEXT ? ROWS ONLY")
    (hlit3 : c ∉ gs "OFFSET 0 ROWS\nFETCH NEXT ? ROWS ONLY") :
    c ∉ r.Query := by
  cases hL : findLimitIdx pq.Query with
  | some i1 =>
    cases hO : findOffsetIdx pq.Query with
    | some i2 =>
      by_cases hord : i1 + 7 ≤ i2
      · rw [fetchLO_both pq i1 i2 hL hO hord] at h
        cases h
        intro hm
        simp only [List.mem_append] at hm
        rcases hm with ((((hm | hm) | hm) | hm) | hm)
        · exact hq (List.take_subset i1 pq.Query hm)
        · exact hlit1 hm
        · exact hq (List.drop_subset (i1 + 7) pq.Query (List.take_subset _ _ hm))
        · exact hlit2 hm
        · exact hq (List.drop_subset (i2 + 8) pq.Query hm)
      · have : fetchLimitAndOffset pq = none := by
          simp only [fetchLimitAndOffset, hL, hO, hord, if_false]
        rw [this] at h
        cases h
    | none =>
      rw [fetchLO_limit_only pq i1 hL hO] at h
      cases h
      intro hm
      simp only [List.mem_append] at hm
      rcases hm with ((hm | hm) | hm)
      · exact hq (List.take_subset i1 pq.Query hm)
      · exact hlit3 hm
      · exact hq (List.drop_subset (i1 + 7) pq.Query hm)
  | none =>
    cases hO : findOffsetIdx pq.Query with
    | some i2 =>
      rw [fetchLO_offset_only pq i2 hL hO] at h
      cases h
      by_cases hup : (firstOccIdx (gs "OFFSET ?") pq.Query).isNone
      · rw [if_pos hup]
        exact replaceAllGo_notMem c _ _ hlit1 pq.Query hq
      · rw [if_neg hup]
        exact replaceAllGo_notMem c _ _ hlit1 pq.Query hq
    | none =>
      rw [fetchLO_no_pag pq hL hO] at h
      cases h
      exact hq

lemma fetchLO_pfx (pq r : PreparedQuery) (h : fetchLimitAndOffset pq = some r) :
    r.paramPfx = pq.paramPfx := by
  cases hL : findLimitIdx pq.Query with
  | some i1 =>
    cases hO : findOffsetIdx pq.Query with
    | some i2 =>
      by_cases hord : i1 + 7 ≤ i2
      · rw [fetchLO_both pq i1 i2 hL hO hord] at h
        cases h
        rfl
      · have : fetchLimitAndOffset pq = none := by
          simp only [fetchLimitAndOffset, hL, hO, hord, if_false]
        rw [this] at h
        cases h
    | none =>
      rw [fetchLO_limit_only pq i1 hL hO] at h
      cases h
      rfl
  | none =>
    cases hO : findOffsetIdx pq.Query with
    | some i2 =>
      rw [fetchLO_offset_only pq i2 hL hO] at h
      cases h
      rfl
    | none =>
      rw [fetchLO_no_pag pq hL hO] at h
      cases h
      rfl

lemma fetch_isSome_of_safe (pq : PreparedQuery)
    (h : fetchOrderSafe pq.Query = true) :
    (fetchLimitAndOffset pq).isSome = true := by
  unfold fetchOrderSafe at h
  cases hL : findLimitIdx pq.Query with
  | some i1 =>
    cases hO : findOffsetIdx pq.Query with
    | some i2 =>
      rw [hL, hO] at h
      have hord : i1 + 7 ≤ i2 := by
        exact of_decide_eq_true h
      rw [fetchLO_both pq i1 i2 hL hO hord]
      rfl
    | none =>
      rw [fetchLO_limit_only pq i1 hL hO]
      rfl
  | none =>
    cases hO : findOffsetIdx pq.Query with
    | some i2 =>
      rw [fetchLO_offset_only pq i2 hL hO]
      rfl
    | none =>
      rw [fetchLO_no_pag pq hL hO]
      rfl

lemma o11g_isSome_of_safe (pq : PreparedQuery)
    (h : o11gArgsSafe pq.Query pq.Args = true) :
    (oracle11gLimitAndOffset pq).isSome = true := by
  unfold o11gArgsSafe at h
  cases hL : findLimitIdx pq.Query with
  | some i1 =>
    cases hO : findOffsetIdx pq.Query with
    | some i2 =>
      rw [hL, hO] at h
      by_cases hlen : 2 ≤ pq.Args.length
      · rw [if_pos hlen] at h
        cases hrev : pq.Args.reverse with
        | nil =>
          have h0 : pq.Args.reverse.length = 0 := by simp [hrev]
          rw [List.length_reverse] at h0
          omega
        | cons b rest1 =>
          cases rest1 with
          | nil =>
            have h0 : pq.Args.reverse.length = 1 := by simp [hrev]
            rw [List.length_reverse] at h0
            omega
          | cons a t =>
            rw [hrev] at h
            cases b with
            | vInt nb =>
              cases a with
              | vInt na =>
                have hswap : (swapLastTwo pq.Args).reverse =
                    GoVal.vInt na :: GoVal.vInt nb :: t :=
                  swapLastTwo_reverse pq.Args _ _ t hrev
                simp only [oracle11gLimitAndOffset, hL, hO]
                rw [if_pos hlen, hswap]
                rfl
              | vStr s2 => simp at h
              | vNil => simp at h
            | vStr s2 => simp at h
            | vNil => simp at h
      · simp only [oracle11gLimitAndOffset, hL, hO]
        rw [if_neg hlen]
        rfl
    | none =>
      simp only [oracle11gLimitAndOffset, hL, hO]
      rfl
  | none =>
    cases hO : findOffsetIdx pq.Query with
    | some i2 =>
      rw [hL, hO] at h
      by_cases hlen : 1 ≤ pq.Args.length
      · rw [if_pos hlen] at h
        cases hrev : pq.Args.reverse with
        | nil =>
          have h0 : pq.Args.reverse.length = 0 := by simp [hrev]
          rw [List.length_reverse] at h0
          omega
        | cons b rest1 =>
          rw [hrev] at h
          cases b with
          | vInt nb =>
            simp only [oracle11gLimitAndOffset, hL, hO]
            rw [if_pos hlen, hrev]
            rfl
          | vStr s2 => simp at h
          | vNil => simp at h
      · simp only [oracle11gLimitAndOffset, hL, hO]
        rw [if_neg hlen]
        rfl
    | none =>
      simp only [oracle11gLimitAndOffset, hL, hO]
      rfl

lemma Prepare_sqlite (pfx Q : List Char) (args : List GoVal) :
    Prepare ⟨Sqlite3, pfx, Q, args⟩ =
      some (replaceParamPlaceHolders ⟨Sqlite3, pfx, Q, args⟩) := by
  simp [Prepare, Sqlite3, Postgres, MySQL, SQLServer, Oracle, Oci8, Oracle11g]

lemma Prepare_postgres (pfx Q : List Char) (args : List GoVal) :
    Prepare ⟨Postgres, pfx, Q, args⟩ =
      (modifyQuery4PostgresQ Q).map
        (fun qm => replaceParamPlaceHolders ⟨Postgres, pfx, qm, args⟩) := by
  simp only [Prepare, Postgres, if_pos]
  cases modifyQuery4PostgresQ Q <;> rfl

lemma Prepare_mysql (pfx Q : List Char) (args : List GoVal) :
    Prepare ⟨MySQL, pfx, Q, args⟩ =
      (modifyQuery4MySQLQ Q).map
        (fun qm => replaceParamPlaceHolders ⟨MySQL, pfx, qm, args⟩) := by
  simp only [Prepare, Postgres, MySQL]
  rw [if_neg (by decide)]
  cases modifyQuery4MySQLQ Q <;> rfl

lemma Prepare_mssql (pfx Q : List Char) (args : List GoVal) :
    Prepare ⟨SQLServer, pfx, Q, args⟩ =
      (modifyQuery4MSSQL ⟨SQLServer, pfx, Q, args⟩).map replaceParamPlaceHolders := by
  simp [Prepare, Postgres, MySQL, SQLServer]

lemma Prepare_oracle12c (d : String) (hd : d = Oracle ∨ d = Oci8)
    (pfx Q : List Char) (args : List GoVal) :
    Prepare ⟨d, pfx, Q, args⟩ =
      (modifyQuery4Oracle12c ⟨d, pfx, Q, args⟩).map replaceParamPlaceHolders := by
  rcases hd with hd | hd <;> subst hd <;>
    simp [Prepare, Postgres, MySQL, SQLServer, Oracle, Oci8]

lemma Prepare_oracle11g (pfx Q : List Char) (args : List GoVal) :
    Prepare ⟨Oracle11g, pfx, Q, args⟩ =
      (modifyQuery4Oracle11g ⟨Oracle11g, pfx, Q, args⟩).map replaceParamPlaceHolders := by
  simp [Prepare, Postgres, MySQL, SQLServer, Oracle, Oci8, Oracle11g]

lemma minus2exceptBoth_inv (q r : List Char) (h : minus2exceptBoth q = some r) :
    ∃ m, swapKwScan (gs "MINUS") (gs "EXCEPT") none q = some m
      ∧ swapKwScan (gs "minus") (gs "except") none m = some r := by
  unfold minus2exceptBoth minus2exceptPass at h
  simp only [if_pos, if_neg] at h
  cases hm : swapKwScan (gs "MINUS") (gs "EXCEPT") none q with
  | none =>
    rw [hm] at h
    cases h
  | some m =>
    rw [hm] at h
    exact ⟨m, rfl, by simpa using h⟩

lemma except2minusBoth_inv (q r : List Char) (h : except2minusBoth q = some r) :
    ∃ m, swapKwScan (gs "EXCEPT") (gs "MINUS") none q = some m
      ∧ swapKwScan (gs "except") (gs "minus") none m = some r := by
  unfold except2minusBoth except2minusPass at h
  simp only [if_pos, if_neg] at h
  cases hm : swapKwScan (gs "EXCEPT") (gs "MINUS") none q with
  | none =>
    rw [hm] at h
    cases h
  | some m =>
    rw [hm] at h
    exact ⟨m, rfl, by simpa using h⟩

lemma count_take_drop (c : Char) (q : List Char) (i : Nat) :
    q.count c = (q.take i).count c + (q.drop i).count c := by
  conv_lhs => rw [← List.take_append_drop i q]
  rw [List.count_append]

lemma oracle11g_no_pag (pq : PreparedQuery)
    (h1 : findLimitIdx pq.Query = none)
    (h2 : findOffsetIdx pq.Query = none) :
    oracle11gLimitAndOffset pq = some pq := by
  simp only [oracle11gLimitAndOffset, h1, h2]

lemma pgIdioms_count_q (Q : List Char) : (pgIdioms Q).count '?' = Q.count '?' := by
  unfold pgIdioms
  rw [replaceAllGo_count '?' _ _ (by decide), replaceAllGo_count '?' _ _ (by decide),
    replaceAllGo_count '?' _ _ (by decide), replaceAllGo_count '?' _ _ (by decide),
    replaceAllGo_count '?' _ _ (by decide), replaceAllGo_count '?' _ _ (by decide)]

lemma mysqlIdioms_count_q (Q : List Char) : (mysqlIdioms Q).count '?' = Q.count '?' := by
  unfold mysqlIdioms
  rw [replaceAllGo_count '?' _ _ (by decide), replaceAllGo_count '?' _ _ (by decide),
    replaceAllGo_count '?' _ _ (by decide), replaceAllGo_count '?' _ _ (by decide),
    replaceAllGo_count '?' _ _ (by decide), replaceAllGo_count '?' _ _ (by decide),
    replaceAllGo_count '?' _ _ (by decide)]

lemma mssqlIdioms_count_q (Q : List Char) : (mssqlIdioms Q).count '?' = Q.count '?' := by
  unfold mssqlIdioms
  rw [replaceAllGo_count '?' _ _ (by decide), replaceAllGo_count '?' _ _ (by decide),
    replaceAllGo_count '?' _ _ (by decide), replaceAllGo_count '?' _ _ (by decide),
    replaceAllGo_count '?' _ _ (by decide), replaceAllGo_count '?' _ _ (by decide),
    replaceAllGo_count '?' _ _ (by decide)]

lemma pgIdioms_notMem_dollar (Q : List Char) (h : '$' ∉ Q) : '$' ∉ pgIdioms Q := by
  unfold pgIdioms
  refine replaceAllGo_notMem _ _ _ (by decide) _ ?_
  refine replaceAllGo_notMem _ _ _ (by decide) _ ?_
  refine replaceAllGo_notMem _ _ _ (by decide) _ ?_
  refine replaceAllGo_notMem _ _ _ (by decide) _ ?_
  refine replaceAllGo_notMem _ _ _ (by decide) _ ?_
  exact replaceAllGo_notMem _ _ _ (by decide) _ h

lemma oracleIdioms_count_q (Q : List Char) : (oracleIdioms Q).count '?' = Q.count '?' := by
  unfold oracleIdioms
  rw [replaceAllGo_count '?' _ _ (by decide), replaceAllGo_count '?' _ _ (by decide),
    replaceAllGo_count '?' _ _ (by decide), replaceAllGo_count '?' _ _ (by decide),
    replaceAllGo_count '?' _ _ (by decide), replaceAllGo_count '?' _ _ (by decide),
    replaceAllGo_count '?' _ _ (by decide), replaceAllGo_count '?' _ _ (by decide)]

lemma pgIdioms_countTok_dollar (Q : List Char) (h : countTok '$' Q = 0) :
    countTok '$' (pgIdioms Q) = 0 := by
  unfold pgIdioms
  refine replaceAllGo_countTok '$' _ _ ?_ ?_ ?_ ?_ _ ?_
  · decide
  · exact forall_head_of_all _ (by decide)
  · exact forall_last_of_all _ _ (by decide)
  · decide
  refine replaceAllGo_countTok '$' _ _ ?_ ?_ ?_ ?_ _ ?_
  · decide
  · exact forall_head_of_all _ (by decide)
  · exact forall_last_of_all _ _ (by decide)
  · decide
  refine replaceAllGo_countTok '$' _ _ ?_ ?_ ?_ ?_ _ ?_
  · decide
  · exact forall_head_of_all _ (by decide)
  · exact forall_last_of_all _ _ (by decide)
  · decide
  refine replaceAllGo_countTok '$' _ _ ?_ ?_ ?_ ?_ _ ?_
  · decide
  · exact forall_head_of_all _ (by decide)
  · exact forall_last_of_all _ _ (by decide)
  · decide
  refine replaceAllGo_countTok '$' _ _ ?_ ?_ ?_ ?_ _ ?_
  · decide
  · exact forall_head_of_all _ (by decide)
  · exact forall_last_of_all _ _ (by decide)
  · decide
  refine replaceAllGo_countTok '$' _ _ ?_ ?_ ?_ ?_ _ ?_
  · decide
  · exact forall_head_of_all _ (by decide)
  · exact forall_last_of_all _ _ (by decide)
  · decide
  exact h

lemma oracleIdioms_countTok_colon (Q : List Char) (h : countTok ':' Q = 0) :
    countTok ':' (oracleIdioms Q) = 0 := by
  unfold oracleIdioms
  refine replaceAllGo_countTok ':' _ _ ?_ ?_ ?_ ?_ _ ?_
  · decide
  · exact forall_head_of_all _ (by decide)
  · exact forall_last_of_all _ _ (by decide)
  · decide
  refine replaceAllGo_countTok ':' _ _ ?_ ?_ ?_ ?_ _ ?_
  · decide
  · exact forall_head_of_all _ (by decide)
  · exact forall_last_of_all _ _ (by decide)
  · decide
  refine replaceAllGo_countTok ':' _ _ ?_ ?_ ?_ ?_ _ ?_
  · decide
  · exact forall_head_of_all _ (by decide)
  · exact forall_last_of_all _ _ (by decide)
  · decide
  refine replaceAllGo_countTok ':' _ _ ?_ ?_ ?_ ?_ _ ?_
  · decide
  · exact forall_head_of_all _ (by decide)
  · exact forall_last_of_all _ _ (by decide)
  · decide
  refine replaceAllGo_countTok ':' _ _ ?_ ?_ ?_ ?_ _ ?_
  · decide
  · exact forall_head_of_all _ (by decide)
  · exact forall_last_of_all _ _ (by decide)
  · decide
  refine replaceAllGo_countTok ':' _ _ ?_ ?_ ?_ ?_ _ ?_
  · decide
  · exact forall_head_of_all _ (by decide)
  · exact forall_last_of_all _ _ (by decide)
  · decide
  refine replaceAllGo_countTok ':' _ _ ?_ ?_ ?_ ?_ _ ?_
  · decide
  · exact forall_head_of_all _ (by decide)
  · exact forall_last_of_all _ _ (by decide)
  · decide
  refine replaceAllGo_countTok ':' _ _ ?_ ?_ ?_ ?_ _ ?_
  · decide
  · exact forall_head_of_all _ (by decide)
  · exact forall_last_of_all _ _ (by decide)
  · decide
  exact h

lemma minus2exceptBoth_countTok_dollar (q r : List Char)
    (h : minus2exceptBoth q = some r) (hq : countTok '$' q = 0) :
    countTok '$' r = 0 := by
  rcases minus2exceptBoth_inv q r h with ⟨m, hm1, hm2⟩
  refine swapKwScan_countTok '$' _ _ ?_ ?_ ?_ ?_ ?_ ?_ none m r hm2 ?_
  · decide
  · exact forall_head_of_all _ (by decide)
  · exact forall_last_of_all _ _ (by decide)
  · exact forall_last_of_all _ _ (by decide)
  · decide
  · decide
  refine swapKwScan_countTok '$' _ _ ?_ ?_ ?_ ?_ ?_ ?_ none q m hm1 hq
  · decide
  · exact forall_head_of_all _ (by decide)
  · exact forall_last_of_all _ _ (by decide)
  · exact forall_last_of_all _ _ (by decide)
  · decide
  · decide

lemma except2minusBoth_countTok_colon (q r : List Char)
    (h : except2minusBoth q = some r) (hq : countTok ':' q = 0) :
    countTok ':' r = 0 := by
  rcases except2minusBoth_inv q r h with ⟨m, hm1, hm2⟩
  refine swapKwScan_countTok ':' _ _ ?_ ?_ ?_ ?_ ?_ ?_ none m r hm2 ?_
  · decide
  · exact forall_head_of_all _ (by decide)
  · exact forall_last_of_all _ _ (by decide)
  · exact forall_last_of_all _ _ (by decide)
  · decide
  · decide
  refine swapKwScan_countTok ':' _ _ ?_ ?_ ?_ ?_ ?_ ?_ none q m hm1 hq
  · decide
  · exact forall_head_of_all _ (by decide)
  · exact forall_last_of_all _ _ (by decide)
  · exact forall_last_of_all _ _ (by decide)
  · decide
  · decide

lemma trimSpaceGo_countTok_zero (pc : Char) (s : List Char) (h : countTok pc s = 0) :
    countTok pc (trimSpaceGo s) = 0 := by
  obtain ⟨A, hA⟩ : ∃ A, A ++ s.dropWhile isGoSpace = s := List.dropWhile_suffix isGoSpace
  have h1 : countTok pc (s.dropWhile isGoSpace) = 0 := by
    have := countTok_append pc (s.dropWhile isGoSpace) A
    rw [hA] at this
    omega
  set X := s.dropWhile isGoSpace with hX
  obtain ⟨B, hB⟩ : ∃ B, B ++ X.reverse.dropWhile isGoSpace = X.reverse :=
    List.dropWhile_suffix isGoSpace
  have hXeq : X = (X.reverse.dropWhile isGoSpace).reverse ++ B.reverse := by
    have := congrArg List.reverse hB
    simpa using this.symm
  have h2 : countTok pc ((X.reverse.dropWhile isGoSpace).reverse) = 0 := by
    have := countTok_append pc B.reverse ((X.reverse.dropWhile isGoSpace).reverse)
    rw [← hXeq] at this
    omega
  exact h2

lemma fetch_mid_post_counts (qm : List Char) (i1 i2 : Nat)
    (hL : findLimitIdx qm = some i1) (hO : findOffsetIdx qm = some i2)
    (hord : i1 + 7 ≤ i2) (h2 : (qm.drop i1).count '?' = 2) :
    ((qm.drop (i1 + 7)).take (i2 - (i1 + 7))).count '?' = 0
    ∧ (qm.drop (i2 + 8)).count '?' = 0
    ∧ (qm.take i1).count '?' + 2 = qm.count '?' := by
  rcases findLimitIdx_props qm i1 hL with ⟨pat1, hp1, hc1, hl1, -, -⟩
  rcases findOffsetIdx_props qm i2 hO with ⟨pat2, hp2, hc2, hl2, -, -⟩
  have hd1 : qm.drop i1 = pat1 ++ qm.drop (i1 + 7) := by
    have hx := firstOccIdx_drop_at pat1 qm i1 hp1
    rw [hl1] at hx
    exact hx
  have hd3 : qm.drop i2 = pat2 ++ qm.drop (i2 + 8) := by
    have hx := firstOccIdx_drop_at pat2 qm i2 hp2
    rw [hl2] at hx
    exact hx
  have ca : (qm.drop i1).count '?' = pat1.count '?' + (qm.drop (i1 + 7)).count '?' := by
    rw [hd1, List.count_append]
  have cb : (qm.drop (i1 + 7)).count '?' =
      ((qm.drop (i1 + 7)).take (i2 - (i1 + 7))).count '?' + (qm.drop i2).count '?' := by
    conv_lhs => rw [drop_split_at qm (i1 + 7) i2 hord]
    rw [List.count_append]
  have cc : (qm.drop i2).count '?' = pat2.count '?' + (qm.drop (i2 + 8)).count '?' := by
    rw [hd3, List.count_append]
  have cd := count_take_drop '?' qm i1
  refine ⟨by omega, by omega, by omega⟩

lemma renumAux_noq (pfx : List Char) (i : Nat) (s : List Char) (h : '?' ∉ s) :
    renumAux pfx i s = s := by
  have hx := renumAux_append_noq pfx s [] i h
  simpa [renumAux] using hx

lemma renumAux_append_shift (pfx Y : List Char) :
    ∀ (X : List Char) (i : Nat),
      renumAux pfx i (X ++ Y) = renumAux pfx i X ++ renumAux pfx (i + X.count '?') Y := by
  intro X
  induction X with
  | nil =>
    intro i
    simp [renumAux]
  | cons c X2 ih =>
    intro i
    by_cases hc : c = '?'
    · subst hc
      have h1 : ('?' :: X2) ++ Y = '?' :: (X2 ++ Y) := rfl
      rw [h1]
      have h0 : renumAux pfx i ('?' :: (X2 ++ Y)) =
          pfx ++ natChars i ++ renumAux pfx (i + 1) (X2 ++ Y) := by
        simp [renumAux]
      rw [h0, ih (i + 1)]
      have h2 : renumAux pfx i ('?' :: X2) = pfx ++ natChars i ++ renumAux pfx (i + 1) X2 := by
        simp [renumAux]
      rw [h2]
      have h3 : ('?' :: X2).count '?' = X2.count '?' + 1 := by
        simp [List.count_cons]
      rw [h3]
      have h4 : i + 1 + X2.count '?' = i + (X2.count '?' + 1) := by omega
      rw [h4]
      simp [List.append_assoc]
    · have h1 : (c :: X2) ++ Y = c :: (X2 ++ Y) := rfl
      rw [h1]
      have h0 : renumAux pfx i (c :: (X2 ++ Y)) = c :: renumAux pfx i (X2 ++ Y) := by
        simp [renumAux, hc]
      rw [h0, ih i]
      have h2 : renumAux pfx i (c :: X2) = c :: renumAux pfx i X2 := by
        simp [renumAux, hc]
      rw [h2]
      have h3 : (c :: X2).count '?' = X2.count '?' := by
        simp [List.count_cons, hc]
      rw [h3]
      rfl

lemma replaceParamPlaceHolders_renum (pq : PreparedQuery) (pc : Char)
    (hp : pq.paramPfx = [pc]) (hq : '?' ∈ pq.Query) :
    replaceParamPlaceHolders pq = { pq with Query := renumAux pq.paramPfx 1 pq.Query } := by
  unfold replaceParamPlaceHolders
  rw [if_neg]
  intro hcon
  rcases Bool.or_eq_true_iff.mp hcon with hx | hx
  · rw [Option.isNone_iff_eq_none] at hx
    exact (firstOccIdx_singleton_none_iff '?' pq.Query).mp hx hq
  · rw [hp] at hx
    cases hx

lemma renumAux_lit_offset (k : Nat) : renumAux (gs ":") k (gs "OFFSET ? ROWS") =
    gs "OFFSET " ++ ':' :: natChars k ++ gs " ROWS" := rfl

lemma renumAux_lit_fetch (k : Nat) : renumAux (gs ":") k (gs "FETCH NEXT ? ROWS ONLY") =
    gs "FETCH NEXT " ++ ':' :: natChars k ++ gs " ROWS ONLY" := rfl

lemma renumAux_lit_between (k : Nat) :
    renumAux (gs ":") k (gs ")\nWHERE rownum BETWEEN ? AND ?") =
      gs ")\nWHERE rownum BETWEEN " ++ ':' :: natChars k
        ++ gs " AND " ++ ':' :: natChars (k + 1) := by
  have h : renumAux (gs ":") k (gs ")\nWHERE rownum BETWEEN ? AND ?") =
      gs ")\nWHERE rownum BETWEEN "
        ++ (':' :: (natChars k ++ (gs " AND " ++ (':' :: (natChars (k + 1) ++ []))))) := rfl
  rw [h]
  simp [List.append_assoc]

lemma fetch_some_countTok (pq r : PreparedQuery)
    (h : fetchLimitAndOffset pq = some r) (hq : countTok ':' pq.Query = 0) :
    countTok ':' r.Query = 0 := by
  cases hL : findLimitIdx pq.Query with
  | some i1 =>
    cases hO : findOffsetIdx pq.Query with
    | some i2 =>
      by_cases hord : i1 + 7 ≤ i2
      · rw [fetchLO_both pq i1 i2 hL hO hord] at h
        cases h
        show countTok ':' (pq.Query.take i1 ++ gs "OFFSET ? ROWS"
          ++ (pq.Query.drop (i1 + 7)).take (i2 - (i1 + 7))
          ++ gs "FETCH NEXT ? ROWS ONLY" ++ pq.Query.drop (i2 + 8)) = 0
        rw [List.append_assoc, List.append_assoc, List.append_assoc]
        rw [countTok_append, countTok_append, countTok_append, countTok_append]
        have t1 : countTok ':' (pq.Query.take i1) = 0 :=
          (countTok_take_drop_zero ':' _ i1 hq).1
        have t2 : countTok ':' ((pq.Query.drop (i1 + 7)).take (i2 - (i1 + 7))) = 0 :=
          (countTok_take_drop_zero ':' _ (i2 - (i1 + 7))
            (countTok_take_drop_zero ':' _ (i1 + 7) hq).2).1
        have t3 : countTok ':' (pq.Query.drop (i2 + 8)) = 0 :=
          (countTok_take_drop_zero ':' _ (i2 + 8) hq).2
        have l1 : countTok ':' (gs "OFFSET ? ROWS") = 0 := by decide
        have l2 : countTok ':' (gs "FETCH NEXT ? ROWS ONLY") = 0 := by decide
        have s1 : straddleTok ':' (pq.Query.take i1)
            (gs "OFFSET ? ROWS" ++ ((pq.Query.drop (i1 + 7)).take (i2 - (i1 + 7))
              ++ (gs "FETCH NEXT ? ROWS ONLY" ++ pq.Query.drop (i2 + 8)))) = 0 :=
          straddleTok_zero_of_head ':' _ _ (forall_head_of_all _ (by rfl))
        have s2 : straddleTok ':' (gs "OFFSET ? ROWS")
            ((pq.Query.drop (i1 + 7)).take (i2 - (i1 + 7))
              ++ (gs "FETCH NEXT ? ROWS ONLY" ++ pq.Query.drop (i2 + 8))) = 0 :=
          straddleTok_zero_of_last ':' _ _ (forall_last_of_all ':' _ (by decide))
        have s3 : straddleTok ':' ((pq.Query.drop (i1 + 7)).take (i2 - (i1 + 7)))
            (gs "FETCH NEXT ? ROWS ONLY" ++ pq.Query.drop (i2 + 8)) = 0 :=
          straddleTok_zero_of_head ':' _ _ (forall_head_of_all _ (by rfl))
        have s4 : straddleTok ':' (gs "FETCH NEXT ? ROWS ONLY") (pq.Query.drop (i2 + 8)) = 0 :=
          straddleTok_zero_of_last ':' _ _ (forall_last_of_all ':' _ (by decide))
        omega
      · have hnone : fetchLimitAndOffset pq = none := by
          simp only [fetchLimitAndOffset, hL, hO, hord, if_false]
        rw [hnone] at h
        cases h
    | none =>
      rw [fetchLO_limit_only pq i1 hL hO] at h
      cases h
      show countTok ':' (pq.Query.take i1 ++ gs "OFFSET 0 ROWS\nFETCH NEXT ? ROWS ONLY"
        ++ pq.Query.drop (i1 + 7)) = 0
      rw [List.append_assoc, countTok_append, countTok_append]
      have t1 : countTok ':' (pq.Query.take i1) = 0 :=
        (countTok_take_drop_zero ':' _ i1 hq).1
      have t3 : countTok ':' (pq.Query.drop (i1 + 7)) = 0 :=
        (countTok_take_drop_zero ':' _ (i1 + 7) hq).2
      have l1 : countTok ':' (gs "OFFSET 0 ROWS\nFETCH NEXT ? ROWS ONLY") = 0 := by decide
      have s1 : straddleTok ':' (pq.Query.take i1)
          (gs "OFFSET 0 ROWS\nFETCH NEXT ? ROWS ONLY" ++ pq.Query.drop (i1 + 7)) = 0 :=
        straddleTok_zero_of_head ':' _ _ (forall_head_of_all _ (by rfl))
      have s2 : straddleTok ':' (gs "OFFSET 0 ROWS\nFETCH NEXT ? ROWS ONLY")
          (pq.Query.drop (i1 + 7)) = 0 :=
        straddleTok_zero_of_last ':' _ _ (forall_last_of_all ':' _ (by decide))
      omega
  | none =>
    cases hO : findOffsetIdx pq.Query with
    | some i2 =>
      rw [fetchLO_offset_only pq i2 hL hO] at h
      cases h
      show countTok ':' (if (firstOccIdx (gs "OFFSET ?") pq.Query).isNone then
          replaceAllGo (gs "offset ?") (gs "OFFSET ? ROWS") pq.Query
        else replaceAllGo (gs "OFFSET ?") (gs "OFFSET ? ROWS") pq.Query) = 0
      by_cases hup : (firstOccIdx (gs "OFFSET ?") pq.Query).isNone
      · rw [if_pos hup]
        refine replaceAllGo_countTok ':' _ _ ?_ ?_ ?_ ?_ _ hq
        · decide
        · exact forall_head_of_all _ (by decide)
        · exact forall_last_of_all _ _ (by decide)
        · decide
      · rw [if_neg hup]
        refine replaceAllGo_countTok ':' _ _ ?_ ?_ ?_ ?_ _ hq
        · decide
        · exact forall_head_of_all _ (by decide)
        · exact forall_last_of_all _ _ (by decide)
        · decide
    | none =>
      rw [fetchLO_no_pag pq hL hO] at h
      cases h
      exact hq

lemma countTok_colon_o11g (mid lit2 : List Char) (hmid : countTok ':' mid = 0)
    (hl2 : countTok ':' lit2 = 0)
    (hl2h : ∀ d, lit2.head? = some d → d.isDigit = false) :
    countTok ':' (gs "SELECT * FROM (\n" ++ mid ++ lit2) = 0 := by
  rw [List.append_assoc, countTok_append, countTok_append]
  have s1 : straddleTok ':' (gs "SELECT * FROM (\n") (mid ++ lit2) = 0 :=
    straddleTok_zero_of_last ':' _ _ (forall_last_of_all ':' _ (by decide))
  have s2 : straddleTok ':' mid lit2 = 0 := straddleTok_zero_of_head ':' _ _ hl2h
  have d1 : countTok ':' (gs "SELECT * FROM (\n") = 0 := by decide
  omega

lemma oracle11g_limit_only (pq : PreparedQuery) (i1 : Nat)
    (h1 : findLimitIdx pq.Query = some i1) (h2 : findOffsetIdx pq.Query = none) :
    oracle11gLimitAndOffset pq = some { pq with
      Query := gs "SELECT * FROM (\n" ++ trimSpaceGo (pq.Query.take i1)
        ++ gs ")\nWHERE rownum BETWEEN 0 AND ?" } := by
  simp only [oracle11gLimitAndOffset, h1, h2]

lemma oracle11g_offset_only (pq : PreparedQuery) (i2 : Nat) (l : List GoVal) (off : Int)
    (h1 : findLimitIdx pq.Query = none) (h2 : findOffsetIdx pq.Query = some i2)
    (ha : pq.Args = l ++ [GoVal.vInt off]) :
    oracle11gLimitAndOffset pq = some { pq with
      Query := gs "SELECT * FROM (\n" ++ trimSpaceGo (pq.Query.take i2)
        ++ gs ")\nWHERE rownum >= ?",
      Args := l ++ [GoVal.vInt (off + 1)] } := by
  have hlen : 1 ≤ pq.Args.length := by
    rw [ha]; simp
  have hrev : pq.Args.reverse = GoVal.vInt off :: l.reverse := by
    rw [ha]; simp
  simp only [oracle11gLimitAndOffset, h1, h2, hlen, if_pos, hrev]
  simp

/-- C8 counterexample: `Prepare` does have a failure mode — with the
Oracle 11g dialect, a query whose pagination keywords are present but
whose trailing arguments are not integers makes the rewriting layer
panic (the `pq.Args[n-2].(int)` type assertion), so nothing is
returned. -/
theorem prepare_panics_on_nonint_args :
    Prepare ⟨Oracle11g, gs ":", gs "limit ? offset ?",
      [GoVal.vStr "a", GoVal.vStr "b"]⟩ = none := by
  simp [Prepare, Oracle11g, Postgres, MySQL, SQLServer, Oracle, Oci8,
    modifyQuery4Oracle11g, oraclePre, oracleIdioms, except2minusBoth, except2minusPass,
    replaceAllGo, swapKwScan, gs, oracle11gLimitAndOffset, findLimitIdx, findOffsetIdx,
    firstOccIdx, trimSpaceGo, isGoSpace, swapLastTwo]

/-- C8 (amended): `Prepare` returns normally on well-formed input, but
not on every input.  It never fails for the sqlite dialect; for the
other dialects it returns normally whenever the dialect's set-difference
keywords do not occur in the idiom-rewritten text, the fetch-paging
keywords (when both present) appear limit-first, and (for Oracle 11g)
the trailing arguments touched by pagination are integers.  Outside
such well-formed input it can panic, e.g. on non-integer trailing
arguments under Oracle 11g pagination. -/
theorem prepare_no_panic_on_wf :
    (∀ (pfx Q : List Char) (args : List GoVal),
      (Prepare ⟨Sqlite3, pfx, Q, args⟩).isSome = true)
    ∧ (∀ (pfx Q : List Char) (args : List GoVal),
      containsSub (gs "MINUS") (pgIdioms Q) = false →
      containsSub (gs "minus") (pgIdioms Q) = false →
      (Prepare ⟨Postgres, pfx, Q, args⟩).isSome = true)
    ∧ (∀ (pfx Q : List Char) (args : List GoVal),
      containsSub (gs "MINUS") (mysqlIdioms Q) = false →
      containsSub (gs "minus") (mysqlIdioms Q) = false →
      (Prepare ⟨MySQL, pfx, Q, args⟩).isSome = true)
    ∧ (∀ (pfx Q : List Char) (args : List GoVal),
      containsSub (gs "MINUS") (mssqlIdioms Q) = false →
      containsSub (gs "minus") (mssqlIdioms Q) = false →
      fetchOrderSafe (mssqlIdioms Q) = true →
      (Prepare ⟨SQLServer, pfx, Q, args⟩).isSome = true)
    ∧ (∀ (d : String) (pfx Q : List Char) (args : List GoVal), d = Oracle ∨ d = Oci8 →
      containsSub (gs "EXCEPT") (oracleIdioms Q) = false →
      containsSub (gs "except") (oracleIdioms Q) = false →
      fetchOrderSafe (oracleIdioms Q) = true →
      (Prepare ⟨d, pfx, Q, args⟩).isSome = true)
    ∧ (∀ (pfx Q : List Char) (args : List GoVal),
      containsSub (gs "EXCEPT") (oracleIdioms Q) = false →
      containsSub (gs "except") (oracleIdioms Q) = false →
      o11gArgsSafe (oracleIdioms Q) args = true →
      (Prepare ⟨Oracle11g, pfx, Q, args⟩).isSome = true) := by
  refine ⟨?_, ?_, ?_, ?_, ?_, ?_⟩
  · intro pfx Q args
    rw [Prepare_sqlite]
    rfl
  · intro pfx Q args h1 h2
    rw [Prepare_postgres]
    have hm : modifyQuery4PostgresQ Q = some (pgIdioms Q) := by
      unfold modifyQuery4PostgresQ
      exact minus2exceptBoth_of_avoids _ h1 h2
    rw [hm]
    rfl
  · intro pfx Q args h1 h2
    rw [Prepare_mysql]
    have hm : modifyQuery4MySQLQ Q = some (mysqlIdioms Q) := by
      unfold modifyQuery4MySQLQ
      exact minus2exceptBoth_of_avoids _ h1 h2
    rw [hm]
    rfl
  · intro pfx Q args h1 h2 hsafe
    rw [Prepare_mssql]
    have hm : mssqlPre Q = some (mssqlIdioms Q) := by
      unfold mssqlPre
      exact minus2exceptBoth_of_avoids _ h1 h2
    unfold modifyQuery4MSSQL
    rw [hm]
    simp only [Option.some_bind]
    have hsome := fetch_isSome_of_safe
      ⟨SQLServer, pfx, mssqlIdioms Q, args⟩ hsafe
    cases hf : mssqlLimitAndOffset ⟨SQLServer, pfx, mssqlIdioms Q, args⟩ with
    | none =>
      unfold mssqlLimitAndOffset at hf
      rw [hf] at hsome
      cases hsome
    | some r =>
      rfl
  · intro d pfx Q args hd h1 h2 hsafe
    rw [Prepare_oracle12c d hd]
    have hm : oraclePre Q = some (oracleIdioms Q) := by
      unfold oraclePre
      exact except2minusBoth_of_avoids _ h1 h2
    unfold modifyQuery4Oracle12c
    rw [hm]
    simp only [Option.some_bind]
    have hsome := fetch_isSome_of_safe ⟨d, pfx, oracleIdioms Q, args⟩ hsafe
    cases hf : oracle12cLimitAndOffset ⟨d, pfx, oracleIdioms Q, args⟩ with
    | none =>
      unfold oracle12cLimitAndOffset at hf
      rw [hf] at hsome
      cases hsome
    | some r =>
      rfl
  · intro pfx Q args h1 h2 hsafe
    rw [Prepare_oracle11g]
    have hm : oraclePre Q = some (oracleIdioms Q) := by
      unfold oraclePre
      exact except2minusBoth_of_avoids _ h1 h2
    unfold modifyQuery4Oracle11g
    rw [hm]
    simp only [Option.some_bind]
    have hsome := o11g_isSome_of_safe ⟨Oracle11g, pfx, oracleIdioms Q, args⟩ hsafe
    cases hf : oracle11gLimitAndOffset ⟨Oracle11g, pfx, oracleIdioms Q, args⟩ with
    | none =>
      rw [hf] at hsome
      cases hsome
    | some r =>
      rfl

/-- C8 witness: preparing `select * from t limit ? offset ?` for SQL
Server returns normally. -/
theorem prepare_no_panic_witness :
    (Prepare ⟨SQLServer, gs "", gs "select * from t limit ? offset ?",
      [GoVal.vInt 10, GoVal.vInt 20]⟩).isSome = true := by
  have hid : mssqlIdioms (gs "select * from t limit ? offset ?") =
      gs "select * from t limit ? offset ?" := by
    simp [mssqlIdioms, replaceAllGo, gs]
  refine prepare_no_panic_on_wf.2.2.2.1 (gs "") (gs "select * from t limit ? offset ?")
    [GoVal.vInt 10, GoVal.vInt 20] ?_ ?_ ?_
  · rw [hid]; decide
  · rw [hid]; decide
  · rw [hid]; decide

/-- C4: for every supported dialect, on well-formed input — as many
generic placeholders as arguments, no text of the dialect's
marker-digit token shape in the template for the renumbered dialects,
pagination keywords (where the dialect rewrites them) either absent or
with their placeholders the final ones and (for Oracle 11g) integer
trailing values, and a rewrite pipeline that returns normally —
`Prepare` yields a query whose remaining placeholder count equals the
length of its argument list, and the left-to-right placeholder order
matches the argument order: the
non-paginating dialects keep the argument list unchanged (sqlite keeps
text and arguments identical, and renumbering maps the k-th `?` to the
k-th token by C2), while for a rewritten `LIMIT ?`/`OFFSET ?` pair the
final text is decomposed explicitly — the OFFSET placeholder is number
len(args)-1 and the FETCH placeholder number len(args), exactly the
positions of the swapped (offsetVal, limitVal) trailing arguments, and
for Oracle 11g the two BETWEEN bounds are tokens len(args)-1 and
len(args), the positions of the computed (offset+1, offset+limit). -/
theorem prepare_placeholder_count_invariant :
    (∀ (Q : List Char) (args : List GoVal),
      Q.count '?' = args.length →
      Prepare ⟨Sqlite3, gs "", Q, args⟩ = some ⟨Sqlite3, gs "", Q, args⟩
        ∧ countPlaceholders (gs "") Q = args.length)
    ∧ (∀ (Q : List Char) (args : List GoVal) (qm : List Char),
      Q.count '?' = args.length → countTok '$' Q = 0 →
      modifyQuery4PostgresQ Q = some qm →
      ∃ pq2, Prepare ⟨Postgres, gs "$", Q, args⟩ = some pq2
        ∧ countPlaceholders (gs "$") pq2.Query = pq2.Args.length
        ∧ pq2.Args = args)
    ∧ (∀ (Q : List Char) (args : List GoVal) (qm : List Char),
      Q.count '?' = args.length →
      modifyQuery4MySQLQ Q = some qm →
      ∃ pq2, Prepare ⟨MySQL, gs "", Q, args⟩ = some pq2
        ∧ countPlaceholders (gs "") pq2.Query = pq2.Args.length
        ∧ pq2.Args = args)
    ∧ (∀ (Q : List Char) (args : List GoVal) (qm : List Char),
      Q.count '?' = args.length →
      mssqlPre Q = some qm → fetchOrderSafe qm = true →
      ∃ pq2, Prepare ⟨SQLServer, gs "", Q, args⟩ = some pq2
        ∧ countPlaceholders (gs "") pq2.Query = pq2.Args.length)
    ∧ (∀ (d : String) (Q : List Char) (args : List GoVal) (qm : List Char),
      d = Oracle ∨ d = Oci8 →
      Q.count '?' = args.length → countTok ':' Q = 0 →
      oraclePre Q = some qm → fetchOrderSafe qm = true →
      ∃ pq2, Prepare ⟨d, gs ":", Q, args⟩ = some pq2
        ∧ countPlaceholders (gs ":") pq2.Query = pq2.Args.length)
    ∧ (∀ (Q : List Char) (args : List GoVal) (qm : List Char),
      Q.count '?' = args.length → countTok ':' Q = 0 →
      oraclePre Q = some qm →
      ((findLimitIdx qm = none ∧ findOffsetIdx qm = none) ∨
        (∃ i1 i2 l a b, findLimitIdx qm = some i1 ∧ findOffsetIdx qm = some i2
          ∧ (qm.drop i1).count '?' = 2
          ∧ args = l ++ [GoVal.vInt a, GoVal.vInt b]) ∨
        (∃ i1, findLimitIdx qm = some i1 ∧ findOffsetIdx qm = none
          ∧ (qm.drop i1).count '?' = 1) ∨
        (∃ i2 l a, findLimitIdx qm = none ∧ findOffsetIdx qm = some i2
          ∧ (qm.drop i2).count '?' = 1 ∧ args = l ++ [GoVal.vInt a])) →
      ∃ pq2, Prepare ⟨Oracle11g, gs ":", Q, args⟩ = some pq2
        ∧ countPlaceholders (gs ":") pq2.Query = pq2.Args.length)
    ∧ (∀ (Q : List Char) (args : List GoVal) (qm : List Char) (i1 i2 : Nat)
        (l : List GoVal) (x y : GoVal),
      Q.count '?' = args.length →
      mssqlPre Q = some qm →
      findLimitIdx qm = some i1 → findOffsetIdx qm = some i2 → i1 + 7 ≤ i2 →
      (qm.drop i1).count '?' = 2 →
      args = l ++ [x, y] →
      Prepare ⟨SQLServer, gs "", Q, args⟩ = some ⟨SQLServer, gs "",
          qm.take i1 ++ gs "OFFSET ? ROWS"
            ++ (qm.drop (i1 + 7)).take (i2 - (i1 + 7))
            ++ gs "FETCH NEXT ? ROWS ONLY" ++ qm.drop (i2 + 8),
          l ++ [y, x]⟩
        ∧ (qm.take i1).count '?' = l.length
        ∧ ((qm.drop (i1 + 7)).take (i2 - (i1 + 7))).count '?' = 0
        ∧ (qm.drop (i2 + 8)).count '?' = 0)
    ∧ (∀ (d : String) (Q : List Char) (args : List GoVal) (qm : List Char) (i1 i2 : Nat)
        (l : List GoVal) (x y : GoVal),
      d = Oracle ∨ d = Oci8 →
      Q.count '?' = args.length →
      oraclePre Q = some qm →
      findLimitIdx qm = some i1 → findOffsetIdx qm = some i2 → i1 + 7 ≤ i2 →
      (qm.drop i1).count '?' = 2 →
      args = l ++ [x, y] →
      Prepare ⟨d, gs ":", Q, args⟩ = some ⟨d, gs ":",
          renumAux (gs ":") 1 (qm.take i1)
            ++ (gs "OFFSET " ++ ':' :: natChars (l.length + 1) ++ gs " ROWS")
            ++ (qm.drop (i1 + 7)).take (i2 - (i1 + 7))
            ++ (gs "FETCH NEXT " ++ ':' :: natChars (l.length + 2) ++ gs " ROWS ONLY")
            ++ qm.drop (i2 + 8),
          l ++ [y, x]⟩)
    ∧ (∀ (Q : List Char) (args : List GoVal) (qm : List Char) (i1 i2 : Nat)
        (l : List GoVal) (a b : Int),
      Q.count '?' = args.length →
      oraclePre Q = some qm →
      findLimitIdx qm = some i1 → findOffsetIdx qm = some i2 →
      (qm.drop i1).count '?' = 2 →
      args = l ++ [GoVal.vInt a, GoVal.vInt b] →
      Prepare ⟨Oracle11g, gs ":", Q, args⟩ = some ⟨Oracle11g, gs ":",
          gs "SELECT * FROM (\n" ++ renumAux (gs ":") 1 (trimSpaceGo (qm.take i1))
            ++ (gs ")\nWHERE rownum BETWEEN " ++ ':' :: natChars (l.length + 1)
              ++ gs " AND " ++ ':' :: natChars (l.length + 2)),
          l ++ [GoVal.vInt (b + 1), GoVal.vInt (b + a)]⟩) := by
  have hcolon_pipe : ∀ (Q qm : List Char), countTok ':' Q = 0 → oraclePre Q = some qm →
      countTok ':' qm = 0 := by
    intro Q qm htok hpre
    refine except2minusBoth_countTok_colon (oracleIdioms Q) qm ?_ (oracleIdioms_countTok_colon Q htok)
    unfold oraclePre at hpre
    exact hpre
  have hora_count : ∀ (Q qm : List Char) (n : Nat), Q.count '?' = n → oraclePre Q = some qm →
      qm.count '?' = n := by
    intro Q qm n hn hpre
    have hinv := except2minusBoth_inv (oracleIdioms Q) qm (by
      unfold oraclePre at hpre
      exact hpre)
    rcases hinv with ⟨m, hm1, hm2⟩
    rw [swapKwScan_some_count '?' _ _ (by decide) none m qm hm2,
      swapKwScan_some_count '?' _ _ (by decide) none (oracleIdioms Q) m hm1,
      oracleIdioms_count_q, hn]
  have hmssql_count : ∀ (Q qm : List Char) (n : Nat), Q.count '?' = n → mssqlPre Q = some qm →
      qm.count '?' = n := by
    intro Q qm n hn hpre
    have hinv := minus2exceptBoth_inv (mssqlIdioms Q) qm (by
      unfold mssqlPre at hpre
      exact hpre)
    rcases hinv with ⟨m, hm1, hm2⟩
    rw [swapKwScan_some_count '?' _ _ (by decide) none m qm hm2,
      swapKwScan_some_count '?' _ _ (by decide) none (mssqlIdioms Q) m hm1,
      mssqlIdioms_count_q, hn]
  refine ⟨?_, ?_, ?_, ?_, ?_, ?_, ?_, ?_, ?_⟩
  · intro Q args hcount
    rw [Prepare_sqlite, replaceParamPlaceHolders_empty _ rfl]
    exact ⟨rfl, hcount⟩
  · intro Q args qm hcount htok hmod
    rw [Prepare_postgres, hmod]
    refine ⟨_, rfl, ?_, ?_⟩
    · have hinv := minus2exceptBoth_inv (pgIdioms Q) qm (by
        unfold modifyQuery4PostgresQ at hmod
        exact hmod)
      rcases hinv with ⟨m, hm1, hm2⟩
      have hcq : qm.count '?' = args.length := by
        rw [swapKwScan_some_count '?' _ _ (by decide) none m qm hm2,
          swapKwScan_some_count '?' _ _ (by decide) none (pgIdioms Q) m hm1,
          pgIdioms_count_q, hcount]
      have htq : countTok '$' qm = 0 := by
        refine minus2exceptBoth_countTok_dollar (pgIdioms Q) qm ?_ (pgIdioms_countTok_dollar Q htok)
        unfold modifyQuery4PostgresQ at hmod
        exact hmod
      have hrn := replaceParamPlaceHolders_countTok ⟨Postgres, gs "$", qm, args⟩ '$'
        rfl htq (by decide) (by decide)
      rw [hrn.1, hrn.2]
      exact hcq
    · exact (replaceParamPlaceHolders_countTok ⟨Postgres, gs "$", qm, args⟩ '$'
        rfl (by
          refine minus2exceptBoth_countTok_dollar (pgIdioms Q) qm ?_ (pgIdioms_countTok_dollar Q htok)
          unfold modifyQuery4PostgresQ at hmod
          exact hmod) (by decide) (by decide)).2
  · intro Q args qm hcount hmod
    rw [Prepare_mysql, hmod]
    refine ⟨_, rfl, ?_, ?_⟩
    · show countPlaceholders (gs "")
          (replaceParamPlaceHolders ⟨MySQL, gs "", qm, args⟩).Query =
        (replaceParamPlaceHolders ⟨MySQL, gs "", qm, args⟩).Args.length
      rw [replaceParamPlaceHolders_empty ⟨MySQL, gs "", qm, args⟩ rfl]
      have hinv := minus2exceptBoth_inv (mysqlIdioms Q) qm (by
        unfold modifyQuery4MySQLQ at hmod
        exact hmod)
      rcases hinv with ⟨m, hm1, hm2⟩
      show qm.count '?' = args.length
      rw [swapKwScan_some_count '?' _ _ (by decide) none m qm hm2,
        swapKwScan_some_count '?' _ _ (by decide) none (mysqlIdioms Q) m hm1,
        mysqlIdioms_count_q, hcount]
    · show (replaceParamPlaceHolders ⟨MySQL, gs "", qm, args⟩).Args = args
      rw [replaceParamPlaceHolders_empty ⟨MySQL, gs "", qm, args⟩ rfl]
  · intro Q args qm hcount hpre hsafe
    rw [Prepare_mssql]
    unfold modifyQuery4MSSQL
    rw [hpre]
    simp only [Option.some_bind]
    have hsome := fetch_isSome_of_safe ⟨SQLServer, gs "", qm, args⟩ hsafe
    cases hf : mssqlLimitAndOffset ⟨SQLServer, gs "", qm, args⟩ with
    | none =>
      unfold mssqlLimitAndOffset at hf
      rw [hf] at hsome
      cases hsome
    | some r =>
      refine ⟨_, rfl, ?_⟩
      have hfc := fetch_some_count ⟨SQLServer, gs "", qm, args⟩ r hf
      have hcq : qm.count '?' = args.length := hmssql_count Q qm args.length hcount hpre
      have hpp : r.paramPfx = gs "" :=
        fetchLO_pfx ⟨SQLServer, gs "", qm, args⟩ r hf
      rw [replaceParamPlaceHolders_empty r hpp]
      show r.Query.count '?' = r.Args.length
      rw [hfc.1, hfc.2]
      exact hcq
  · intro d Q args qm hd hcount htok hpre hsafe
    rw [Prepare_oracle12c d hd]
    unfold modifyQuery4Oracle12c
    rw [hpre]
    simp only [Option.some_bind]
    have hsome := fetch_isSome_of_safe ⟨d, gs ":", qm, args⟩ hsafe
    cases hf : oracle12cLimitAndOffset ⟨d, gs ":", qm, args⟩ with
    | none =>
      unfold oracle12cLimitAndOffset at hf
      rw [hf] at hsome
      cases hsome
    | some r =>
      refine ⟨_, rfl, ?_⟩
      have hfc := fetch_some_count ⟨d, gs ":", qm, args⟩ r hf
      have hcq : qm.count '?' = args.length := hora_count Q qm args.length hcount hpre
      have htq : countTok ':' qm = 0 := hcolon_pipe Q qm htok hpre
      have htr : countTok ':' r.Query = 0 :=
        fetch_some_countTok ⟨d, gs ":", qm, args⟩ r hf htq
      have hpp : r.paramPfx = gs ":" :=
        fetchLO_pfx ⟨d, gs ":", qm, args⟩ r hf
      have hrn := replaceParamPlaceHolders_countTok r ':' hpp htr (by decide) (by decide)
      rw [hpp] at hrn
      rw [hrn.1, hrn.2, hfc.1, hfc.2]
      exact hcq
  · intro Q args qm hcount htok hpre hshape
    rw [Prepare_oracle11g]
    unfold modifyQuery4Oracle11g
    rw [hpre]
    simp only [Option.some_bind]
    have hcq : qm.count '?' = args.length := hora_count Q qm args.length hcount hpre
    have htq : countTok ':' qm = 0 := hcolon_pipe Q qm htok hpre
    rcases hshape with ⟨hL, hO⟩ |
      ⟨i1, i2, l, a, b, hL, hO, hdrop2, hargs⟩ |
      ⟨i1, hL, hO, hdrop1⟩ |
      ⟨i2, l, a, hL, hO, hdrop1, hargs⟩
    · rw [oracle11g_no_pag ⟨Oracle11g, gs ":", qm, args⟩ hL hO]
      refine ⟨_, rfl, ?_⟩
      have hrn := replaceParamPlaceHolders_countTok ⟨Oracle11g, gs ":", qm, args⟩ ':'
        rfl htq (by decide) (by decide)
      rw [hrn.1, hrn.2]
      exact hcq
    · have hob := oracle11g_both ⟨Oracle11g, gs ":", qm, args⟩ i1 i2 l a b hL hO hargs
      rw [hob]
      refine ⟨_, rfl, ?_⟩
      set rQ : List Char := gs "SELECT * FROM (\n" ++ trimSpaceGo (qm.take i1)
        ++ gs ")\nWHERE rownum BETWEEN ? AND ?" with hrQ
      have hcr : rQ.count '?' = args.length := by
        rw [hrQ]
        simp only [List.count_append]
        have e1 : (gs "SELECT * FROM (\n").count '?' = 0 := by decide
        have e2 : (gs ")\nWHERE rownum BETWEEN ? AND ?").count '?' = 2 := by decide
        rw [e1, e2, trimSpaceGo_count '?' (by decide)]
        have hsplit := count_take_drop '?' qm i1
        rw [hdrop2] at hsplit
        omega
      have hnr : countTok ':' rQ = 0 := by
        rw [hrQ]
        refine countTok_colon_o11g _ _ ?_ (by decide) (forall_head_of_all _ (by decide))
        exact trimSpaceGo_countTok_zero ':' _ (countTok_take_drop_zero ':' qm i1 htq).1
      have hrn := replaceParamPlaceHolders_countTok
        ⟨Oracle11g, gs ":", rQ, l ++ [GoVal.vInt (b + 1), GoVal.vInt (b + a)]⟩ ':'
        rfl hnr (by decide) (by decide)
      rw [hrn.1, hrn.2]
      show rQ.count '?' = (l ++ [GoVal.vInt (b + 1), GoVal.vInt (b + a)]).length
      rw [hcr, hargs]
      simp
    · rw [oracle11g_limit_only ⟨Oracle11g, gs ":", qm, args⟩ i1 hL hO]
      refine ⟨_, rfl, ?_⟩
      set rQ : List Char := gs "SELECT * FROM (\n" ++ trimSpaceGo (qm.take i1)
        ++ gs ")\nWHERE rownum BETWEEN 0 AND ?" with hrQ
      have hcr : rQ.count '?' = args.length := by
        rw [hrQ]
        simp only [List.count_append]
        have e1 : (gs "SELECT * FROM (\n").count '?' = 0 := by decide
        have e2 : (gs ")\nWHERE rownum BETWEEN 0 AND ?").count '?' = 1 := by decide
        rw [e1, e2, trimSpaceGo_count '?' (by decide)]
        have hsplit := count_take_drop '?' qm i1
        rw [hdrop1] at hsplit
        omega
      have hnr : countTok ':' rQ = 0 := by
        rw [hrQ]
        refine countTok_colon_o11g _ _ ?_ (by decide) (forall_head_of_all _ (by decide))
        exact trimSpaceGo_countTok_zero ':' _ (countTok_take_drop_zero ':' qm i1 htq).1
      have hrn := replaceParamPlaceHolders_countTok
        ⟨Oracle11g, gs ":", rQ, args⟩ ':' rfl hnr (by decide) (by decide)
      rw [hrn.1, hrn.2]
      exact hcr
    · rw [oracle11g_offset_only ⟨Oracle11g, gs ":", qm, args⟩ i2 l a hL hO hargs]
      refine ⟨_, rfl, ?_⟩
      set rQ : List Char := gs "SELECT * FROM (\n" ++ trimSpaceGo (qm.take i2)
        ++ gs ")\nWHERE rownum >= ?" with hrQ
      have hcr : rQ.count '?' = args.length := by
        rw [hrQ]
        simp only [List.count_append]
        have e1 : (gs "SELECT * FROM (\n").count '?' = 0 := by decide
        have e2 : (gs ")\nWHERE rownum >= ?").count '?' = 1 := by decide
        rw [e1, e2, trimSpaceGo_count '?' (by decide)]
        have hsplit := count_take_drop '?' qm i2
        rw [hdrop1] at hsplit
        omega
      have hnr : countTok ':' rQ = 0 := by
        rw [hrQ]
        refine countTok_colon_o11g _ _ ?_ (by decide) (forall_head_of_all _ (by decide))
        exact trimSpaceGo_countTok_zero ':' _ (countTok_take_drop_zero ':' qm i2 htq).1
      have hrn := replaceParamPlaceHolders_countTok
        ⟨Oracle11g, gs ":", rQ, l ++ [GoVal.vInt (a + 1)]⟩ ':' rfl hnr (by decide) (by decide)
      rw [hrn.1, hrn.2]
      show rQ.count '?' = (l ++ [GoVal.vInt (a + 1)]).length
      rw [hcr, hargs]
      simp
  · intro Q args qm i1 i2 l x y hcount hpre hL hO hord hdrop2 hargs
    have hcq : qm.count '?' = args.length := hmssql_count Q qm args.length hcount hpre
    rcases fetch_mid_post_counts qm i1 i2 hL hO hord hdrop2 with ⟨hmid0, hpost0, htake2⟩
    have hlen : args.length = l.length + 2 := by
      rw [hargs]
      simp
    refine ⟨?_, by omega, hmid0, hpost0⟩
    rw [Prepare_mssql]
    unfold modifyQuery4MSSQL
    rw [hpre]
    simp only [Option.some_bind]
    rw [show mssqlLimitAndOffset = fetchLimitAndOffset from rfl]
    rw [fetchLO_both ⟨SQLServer, gs "", qm, args⟩ i1 i2 hL hO hord]
    show some (replaceParamPlaceHolders _) = _
    rw [replaceParamPlaceHolders_empty _ rfl]
    rw [hargs, swapLastTwo_append]
  · intro d Q args qm i1 i2 l x y hd hcount hpre hL hO hord hdrop2 hargs
    have hcq : qm.count '?' = args.length := hora_count Q qm args.length hcount hpre
    rcases fetch_mid_post_counts qm i1 i2 hL hO hord hdrop2 with ⟨hmid0, hpost0, htake2⟩
    have hlen : args.length = l.length + 2 := by
      rw [hargs]
      simp
    have htake : (qm.take i1).count '?' = l.length := by omega
    have hren : renumAux (gs ":") 1 (qm.take i1 ++ (gs "OFFSET ? ROWS"
          ++ ((qm.drop (i1 + 7)).take (i2 - (i1 + 7))
            ++ (gs "FETCH NEXT ? ROWS ONLY" ++ qm.drop (i2 + 8))))) =
        renumAux (gs ":") 1 (qm.take i1)
          ++ (gs "OFFSET " ++ ':' :: natChars (l.length + 1) ++ gs " ROWS")
          ++ (qm.drop (i1 + 7)).take (i2 - (i1 + 7))
          ++ (gs "FETCH NEXT " ++ ':' :: natChars (l.length + 2) ++ gs " ROWS ONLY")
          ++ qm.drop (i2 + 8) := by
      rw [renumAux_append_shift, htake]
      rw [renumAux_append_shift]
      rw [show (gs "OFFSET ? ROWS").count '?' = 1 from by decide]
      rw [renumAux_append_shift, hmid0]
      rw [renumAux_append_shift]
      rw [show (gs "FETCH NEXT ? ROWS ONLY").count '?' = 1 from by decide]
      rw [renumAux_noq (gs ":") _ _ (List.count_eq_zero.mp hmid0)]
      rw [renumAux_noq (gs ":") _ _ (List.count_eq_zero.mp hpost0)]
      rw [show (1 : Nat) + l.length = l.length + 1 from by omega]
      rw [renumAux_lit_offset]
      rw [show l.length + 1 + 1 + 0 = l.length + 2 from by omega]
      rw [renumAux_lit_fetch]
      simp [List.append_assoc]
    rw [Prepare_oracle12c d hd]
    unfold modifyQuery4Oracle12c
    rw [hpre]
    simp only [Option.some_bind]
    rw [show oracle12cLimitAndOffset = fetchLimitAndOffset from rfl]
    have hfb : fetchLimitAndOffset ⟨d, gs ":", qm, args⟩ = some ⟨d, gs ":",
        qm.take i1 ++ gs "OFFSET ? ROWS" ++ (qm.drop (i1 + 7)).take (i2 - (i1 + 7))
          ++ gs "FETCH NEXT ? ROWS ONLY" ++ qm.drop (i2 + 8),
        swapLastTwo args⟩ :=
      fetchLO_both ⟨d, gs ":", qm, args⟩ i1 i2 hL hO hord
    rw [hfb]
    have hmem : '?' ∈ qm.take i1 ++ gs "OFFSET ? ROWS"
        ++ (qm.drop (i1 + 7)).take (i2 - (i1 + 7))
        ++ gs "FETCH NEXT ? ROWS ONLY" ++ qm.drop (i2 + 8) := by
      refine List.mem_append.mpr (Or.inl ?_)
      refine List.mem_append.mpr (Or.inl ?_)
      refine List.mem_append.mpr (Or.inl ?_)
      refine List.mem_append.mpr (Or.inr ?_)
      decide
    have hrp : replaceParamPlaceHolders ⟨d, gs ":",
        qm.take i1 ++ gs "OFFSET ? ROWS" ++ (qm.drop (i1 + 7)).take (i2 - (i1 + 7))
          ++ gs "FETCH NEXT ? ROWS ONLY" ++ qm.drop (i2 + 8),
        swapLastTwo args⟩ = ⟨d, gs ":",
        renumAux (gs ":") 1 (qm.take i1 ++ gs "OFFSET ? ROWS"
          ++ (qm.drop (i1 + 7)).take (i2 - (i1 + 7))
          ++ gs "FETCH NEXT ? ROWS ONLY" ++ qm.drop (i2 + 8)),
        swapLastTwo args⟩ :=
      replaceParamPlaceHolders_renum _ ':' rfl hmem
    show some (replaceParamPlaceHolders ⟨d, gs ":",
        qm.take i1 ++ gs "OFFSET ? ROWS" ++ (qm.drop (i1 + 7)).take (i2 - (i1 + 7))
          ++ gs "FETCH NEXT ? ROWS ONLY" ++ qm.drop (i2 + 8),
        swapLastTwo args⟩) = _
    rw [hrp]
    rw [show qm.take i1 ++ gs "OFFSET ? ROWS" ++ (qm.drop (i1 + 7)).take (i2 - (i1 + 7))
          ++ gs "FETCH NEXT ? ROWS ONLY" ++ qm.drop (i2 + 8)
        = qm.take i1 ++ (gs "OFFSET ? ROWS"
          ++ ((qm.drop (i1 + 7)).take (i2 - (i1 + 7))
            ++ (gs "FETCH NEXT ? ROWS ONLY" ++ qm.drop (i2 + 8)))) from by
      simp [List.append_assoc]]
    rw [hren, hargs, swapLastTwo_append]
  · intro Q args qm i1 i2 l a b hcount hpre hL hO hdrop2 hargs
    have hcq : qm.count '?' = args.length := hora_count Q qm args.length hcount hpre
    have hlen : args.length = l.length + 2 := by
      rw [hargs]
      simp
    have htake : (qm.take i1).count '?' = l.length := by
      have hsplit := count_take_drop '?' qm i1
      rw [hdrop2] at hsplit
      omega
    have htrim : (trimSpaceGo (qm.take i1)).count '?' = l.length := by
      rw [trimSpaceGo_count '?' (by decide)]
      exact htake
    have hren : renumAux (gs ":") 1 (gs "SELECT * FROM (\n"
          ++ (trimSpaceGo (qm.take i1) ++ gs ")\nWHERE rownum BETWEEN ? AND ?")) =
        gs "SELECT * FROM (\n" ++ renumAux (gs ":") 1 (trimSpaceGo (qm.take i1))
          ++ (gs ")\nWHERE rownum BETWEEN " ++ ':' :: natChars (l.length + 1)
            ++ gs " AND " ++ ':' :: natChars (l.length + 2)) := by
      rw [renumAux_append_noq (gs ":") _ _ 1 (by decide)]
      rw [renumAux_append_shift, htrim]
      rw [show (1 : Nat) + l.length = l.length + 1 from by omega]
      rw [renumAux_lit_between]
      rw [show l.length + 1 + 1 = l.length + 2 from by omega]
      simp [List.append_assoc]
    rw [Prepare_oracle11g]
    unfold modifyQuery4Oracle11g
    rw [hpre]
    simp only [Option.some_bind]
    have hob : oracle11gLimitAndOffset ⟨Oracle11g, gs ":", qm, args⟩ = some ⟨Oracle11g, gs ":",
        gs "SELECT * FROM (\n" ++ trimSpaceGo (qm.take i1)
          ++ gs ")\nWHERE rownum BETWEEN ? AND ?",
        l ++ [GoVal.vInt (b + 1), GoVal.vInt (b + a)]⟩ :=
      oracle11g_both ⟨Oracle11g, gs ":", qm, args⟩ i1 i2 l a b hL hO hargs
    rw [hob]
    have hmem : '?' ∈ gs "SELECT * FROM (\n" ++ trimSpaceGo (qm.take i1)
        ++ gs ")\nWHERE rownum BETWEEN ? AND ?" := by
      refine List.mem_append.mpr (Or.inr ?_)
      decide
    have hrp : replaceParamPlaceHolders ⟨Oracle11g, gs ":",
        gs "SELECT * FROM (\n" ++ trimSpaceGo (qm.take i1)
          ++ gs ")\nWHERE rownum BETWEEN ? AND ?",
        l ++ [GoVal.vInt (b + 1), GoVal.vInt (b + a)]⟩ = ⟨Oracle11g, gs ":",
        renumAux (gs ":") 1 (gs "SELECT * FROM (\n" ++ trimSpaceGo (qm.take i1)
          ++ gs ")\nWHERE rownum BETWEEN ? AND ?"),
        l ++ [GoVal.vInt (b + 1), GoVal.vInt (b + a)]⟩ :=
      replaceParamPlaceHolders_renum _ ':' rfl hmem
    show some (replaceParamPlaceHolders ⟨Oracle11g, gs ":",
        gs "SELECT * FROM (\n" ++ trimSpaceGo (qm.take i1)
          ++ gs ")\nWHERE rownum BETWEEN ? AND ?",
        l ++ [GoVal.vInt (b + 1), GoVal.vInt (b + a)]⟩) = _
    rw [hrp]
    rw [show gs "SELECT * FROM (\n" ++ trimSpaceGo (qm.take i1)
          ++ gs ")\nWHERE rownum BETWEEN ? AND ?"
        = gs "SELECT * FROM (\n"
          ++ (trimSpaceGo (qm.take i1) ++ gs ")\nWHERE rownum BETWEEN ? AND ?") from by
      simp [List.append_assoc]]
    rw [hren]

/-- C4 witness: preparing
`select * from t where a = ? limit ? offset ?` with three arguments for
Oracle 11g leaves exactly three placeholders, matching the three
rewritten arguments. -/
theorem prepare_placeholder_count_witness :
    ∃ pq2, Prepare ⟨Oracle11g, gs ":",
        gs "select * from t where a = ? limit ? offset ?",
        [GoVal.vStr "x", GoVal.vInt 10, GoVal.vInt 20]⟩ = some pq2
      ∧ countPlaceholders (gs ":") pq2.Query = pq2.Args.length := by
  have hpre : oraclePre (gs "select * from t where a = ? limit ? offset ?") =
      some (gs "select * from t where a = ? limit ? offset ?") := by
    simp [oraclePre, oracleIdioms, except2minusBoth, except2minusPass,
      replaceAllGo, swapKwScan, gs]
  exact prepare_placeholder_count_invariant.2.2.2.2.2.1
    (gs "select * from t where a = ? limit ? offset ?")
    [GoVal.vStr "x", GoVal.vInt 10, GoVal.vInt 20]
    (gs "select * from t where a = ? limit ? offset ?")
    (by decide) (by decide) hpre
    (Or.inr (Or.inl ⟨28, 36, [GoVal.vStr "x"], 10, 20, by decide, by decide, by decide, rfl⟩))

/-- C7 counterexample: on a non-Oracle backend (Postgres) a column
named `ID` does not bind to the field tagged `id`, although the two
names match case-insensitively — the scanner compares tags and column
names by exact equality there. -/
theorem scan_binding_not_case_insensitive :
    scanBindings Postgres [gs "ID"] [gs "id"] = some [ColBinding.unbound]
    ∧ lowerGo (gs "ID") = lowerGo (gs "id") := by
  constructor
  · decide
  · decide

/-- C7 (amended): the scanner binds a result column to the first field
whose `sql` tag equals the column name by exact, case-sensitive string
comparison.  For non-Oracle backends the column name is used verbatim;
for the Oracle backends a column name beginning with a double quote is
used verbatim (original case preserved) while an unquoted name is
lowercased first, so unquoted Oracle columns match case-insensitively
exactly those tags that are written in lowercase. -/
theorem scan_binding_exact_match_spec :
    (∀ (tags : List (List Char)) (c : List Char) (j : Nat),
      bindCol false tags c = ColBinding.field j ↔
        (tags.get? j = some c ∧ ∀ k, k < j → tags.get? k ≠ some c))
    ∧ (∀ (tags : List (List Char)) (c : List Char),
      bindCol false tags c = ColBinding.unbound ↔ c ∉ tags)
    ∧ (∀ (d : String) (cols tags : List (List Char)), isOracleType d = false →
      scanBindings d cols tags = some (cols.map (bindCol false tags)))
    ∧ (∀ (d : String) (cols tags : List (List Char)), isOracleType d = true →
      (∀ c ∈ cols, c ≠ []) →
      scanBindings d cols tags = some (cols.map fun c =>
        bindCol true tags (if c.head? = some '"' then c else lowerGo c))) := by
  refine ⟨?_, ?_, ?_, ?_⟩
  · intro tags c j
    rw [← fieldIdxLoop_eq_some_iff]
    cases hf : fieldIdxLoop tags c with
    | none => simp [bindCol, hf]
    | some j2 =>
      simp only [bindCol, Bool.false_and, Bool.false_eq_true, if_false, hf]
      constructor
      · intro h
        cases h
        rfl
      · intro h
        cases h
        rfl
  · intro tags c
    rw [← fieldIdxLoop_eq_none_iff]
    cases hf : fieldIdxLoop tags c <;> simp [bindCol, hf]
  · intro d cols tags hd
    simp [scanBindings, normalizeCols, hd, isOracleType] at hd ⊢
    simp [hd]
  · intro d cols tags hd hne
    simp only [scanBindings, hd, normalizeCols, if_pos]
    induction cols with
    | nil => simp [normalizeColsLoop]
    | cons c cs ih =>
      have hc : c ≠ [] := hne c (List.mem_cons_self c cs)
      have hcs : ∀ u ∈ cs, u ≠ [] := fun u hu => hne u (List.mem_cons_of_mem c hu)
      have ihc := ih hcs
      cases c with
      | nil => exact absurd rfl hc
      | cons c0 t =>
        by_cases hq : c0 = '"'
        · subst hq
          simp only [normalizeColsLoop, normalizeCol, if_pos rfl]
          cases hm : normalizeColsLoop cs with
          | none => rw [hm] at ihc; simp at ihc
          | some v =>
            rw [hm] at ihc
            simp only [Option.map_some'] at ihc ⊢
            simp only [Option.some.injEq] at ihc
            simp [ihc]
        · simp only [normalizeColsLoop, normalizeCol, if_neg hq]
          cases hm : normalizeColsLoop cs with
          | none => rw [hm] at ihc; simp at ihc
          | some v =>
            rw [hm] at ihc
            simp only [Option.map_some'] at ihc ⊢
            simp only [Option.some.injEq] at ihc
            have hh : ((c0 :: t).head? = some '"') = False := by
              simp [hq]
            simp [ihc, hh, hq]

/-- C7 witness: for the Oracle backend the unquoted column `COL1`
binds to the field tagged lowercase `col1` and the quoted column
`"Quoted"` binds, case preserved, to the field tagged `"Quoted"`. -/
theorem scan_binding_oracle_witness :
    scanBindings Oracle [gs "COL1", gs "\"Quoted\""] [gs "col1", gs "\"Quoted\""] =
      some [ColBinding.field 0, ColBinding.field 1] := by
  have h := scan_binding_exact_match_spec.2.2.2 Oracle
    [gs "COL1", gs "\"Quoted\""] [gs "col1", gs "\"Quoted\""]
    (by decide) (by decide)
  exact h.trans (by decide)

end GoUtils
